import Mathlib

/-!
# Resource reallocation (`cluster/calcium/realloc.go`)

A shallow embedding of the reallocation engine and theorems about it.

Conventions of the embedding.

* Go `int64` values are `Int`; arithmetic done by `realloc.go` itself is wrapped
  with `wrap64`.
* Go `float64` values are kept abstract: a type `F` with the operations the file
  uses, collected in `Params`.
* The node ledger kept by the store, the in-memory CPU map of every node
  object, the outcome channel and a log of every call made to a collaborator
  form the `World`; every function passes it explicitly.
* Results of calls to collaborators (store, lock, scheduler, runtime) are not
  computed: every container and every node entry of a batch carries the replies
  the environment gives to the calls made for it, so that quantifying over
  batches quantifies over every combination of replies.
* A Go map that is ranged over is a list; the list order is the iteration
  order, so quantifying over lists covers every order. A function that ranges
  over the same map several times uses the same order each time.
* Go `int` is 64 bits wide, so the conversion `int(x)` of an `int64` changes
  nothing.
* The value returned by `container.Inspect` is docker's `ContainerJSON`, whose
  fields `ID` and `HostConfig` sit behind the embedded pointer
  `*ContainerJSONBase`. With an error comes the zero value, whose pointer is
  nil, and reading `ID` through it is a run-time panic.
-/

namespace Calcium

/-! ## Machine integers -/

/-- Two's complement wrap-around of a mathematical integer into `int64`. -/
def wrap64 (x : Int) : Int := (x + 2 ^ 63) % 2 ^ 64 - 2 ^ 63

/-- Range of the Go type `int64`. -/
def isInt64 (x : Int) : Prop := -(2 ^ 63) ≤ x ∧ x < 2 ^ 63

instance (x : Int) : Decidable (isInt64 x) := by
  unfold isInt64; infer_instance

/-! ## Data model (`types` package, as used by `realloc.go`) -/

/-- CPU map `types.CPUMap`: core label to share; an absent label has share 0. -/
abbrev CPUMap := String → Int

/-- Modelled from the spec: `CPUMap.Add` of the `types` package (not in this file),
"return its currently held CPU share to that node's available CPU map": shares
are added core by core. -/
def CPUMap.Add (c q : CPUMap) : CPUMap := fun label => c label + q label

/-- Modelled from the spec: `CPUMap.Sub` of the `types` package (not in this file),
the "re-subtract" that undoes a return: shares are subtracted core by core. -/
def CPUMap.Sub (c q : CPUMap) : CPUMap := fun label => c label - q label

/-- Allocation policy of a pod. -/
inductive Favor where
  | CPU_PRIOR
  | MEM_PRIOR
  deriving DecidableEq, Repr

/-- Pod as returned by the store. `addr` is the identity of the `*types.Pod`
pointer; Go maps keyed by the pointer compare it. -/
structure Pod where
  addr : Nat
  Name : String
  Favor : Favor
  deriving DecidableEq, Repr

/-- Node object. `addr` is the identity of the `*types.Node` pointer. The
mutable field `CPU` of the object lives in `World.nodeCPU`. -/
structure Node where
  addr : Nat
  Name : String
  Podname : String
  MemCap : Int
  deriving DecidableEq, Repr

/-- Container metadata `types.Container`. -/
structure Container where
  ID : String
  Podname : String
  Nodename : String
  CPU : CPUMap
  Memory : Int
  RawResource : Bool

/-- Part of the runtime's `ContainerJSON` that `realloc.go` reads. -/
structure ContainerJSON where
  ID : String
  CPUQuota : Int
  Memory : Int
  deriving DecidableEq, Repr

/-- One outcome on the result channel. -/
structure ReallocResourceMessage where
  ContainerID : String
  Success : Bool
  deriving DecidableEq, Repr

/-- Go `error` value: `none` is `nil`. -/
abbrev GoError := Option String

/-- Successful answer of `scheduler.SelectCPUNodes`: the two maps it returns,
both keyed by node name. -/
structure Selection where
  result : String → Option (List CPUMap)
  changed : String → Option CPUMap

/-- Replies of the environment to the node level calls made for one node entry
of a batch. -/
structure NodeReplies where
  /-- Whether `UpdateNodeMem(..., "-")` of the capacity check returns `nil`. -/
  UpdateNodeMem : Bool
  /-- Answer of `SelectCPUNodes` for this node: `none` is an error. -/
  SelectCPUNodes : Option Selection
  /-- Whether `UpdateNode` returns `nil`. -/
  UpdateNode : Bool

/-- Replies of the environment to the calls made for one container. -/
structure ContainerReplies where
  /-- Answer of `container.Inspect`: the inspected record, or `none` for an
  error, which comes with the zero `ContainerJSON` (embedded pointer nil). -/
  Inspect : Option ContainerJSON
  /-- Whether `reSetContainer` returns `nil`. -/
  reSetContainer : Bool
  /-- Whether `UpdateNodeMem(..., "+")` of the apply step returns `nil`. -/
  UpdateNodeMem : Bool
  /-- Whether `AddContainer` returns `nil`. -/
  AddContainer : Bool
  /-- Whether `UpdateNodeCPU(..., "+")` returns `nil`. -/
  UpdateNodeCPUPlus : Bool
  /-- Whether `UpdateNodeCPU(..., "-")` returns `nil`. -/
  UpdateNodeCPUMinus : Bool
  /-- Answer of `GetNode` for this container: `none` is an error. -/
  GetNode : Option Node
  /-- Answer of `GetPod` for this container: `none` is an error. -/
  GetPod : Option Pod
  /-- Replies to the node level calls of a node entry opened by this
  container during grouping. -/
  entry : NodeReplies

/-- Container of the input together with the environment's replies. -/
structure Job where
  container : Container
  replies : ContainerReplies

/-- One entry of a Go `NodeContainers` map: key, value and the replies. -/
structure NodeJobs where
  node : Node
  containers : List Job
  replies : NodeReplies

/-- Go `NodeContainers`, `map[*types.Node][]*types.Container`. -/
abbrev NodeContainers := List NodeJobs

/-- Go `CPUNodeContainers`, `map[float64]NodeContainers`. -/
abbrev CPUNodeContainers (F : Type) := List (F × NodeContainers)

/-- Go `NodeCPUMap`, `map[*types.Node][]types.CPUMap`. -/
abbrev NodeCPUMap := List (Node × List CPUMap)

/-- Go `CPUNodeContainersMap`, `map[float64]NodeCPUMap`. -/
abbrev CPUNodeContainersMap (F : Type) := List (F × NodeCPUMap)

/-- What `realloc.go` takes from outside this file: the `float64` operations it
uses, the helper `calculateCPUUsage` and the constant `minMemory`. -/
structure Params (F : Type) where
  /-- Addition of `float64`. -/
  add : F → F → F
  /-- Test `x < 0.0`. -/
  ltZero : F → Bool
  /-- Equality of `float64` map keys. -/
  keyEq : F → F → Bool
  /-- Conversion `int64(cpu * float64(CpuPeriodBase))`. -/
  toQuota : F → Int
  /-- Helper `calculateCPUUsage(c.config.Scheduler.ShareBase, container)`. -/
  calculateCPUUsage : Container → F
  /-- Constant `minMemory`. -/
  minMemory : Int

/-! ## World: ledger, channel and call log -/

/-- Call to a collaborator, as recorded in the log. -/
inductive Call where
  | GetContainers
  | GetNode (podname nodename : String)
  | GetPod (podname : String)
  | Lock (podname : String)
  | Unlock (podname : String)
  | UpdateNodeMem (podname nodename : String) (amount : Int) (plus : Bool)
  | UpdateNodeCPU (podname nodename : String) (cpu : CPUMap) (plus : Bool)
  | UpdateNode (node : Node)
  | AddContainer (id : String) (memory : Int)
  | SelectCPUNodes (nodename : String) (count : Nat)
  | Inspect (id : String)
  | reSetContainer (id : String) (nodename : String)

/-- Calls that only read the store. -/
def Call.isRead : Call → Bool
  | .GetContainers => true
  | .GetNode _ _ => true
  | .GetPod _ => true
  | _ => false

/-- Calls `UpdateNodeMem` and `UpdateNodeCPU`. -/
def Call.isNodeMemOrCPU : Call → Bool
  | .UpdateNodeMem _ _ _ _ => true
  | .UpdateNodeCPU _ _ _ _ => true
  | _ => false

/-- Call `UpdateNode`. -/
def Call.isUpdateNode : Call → Bool
  | .UpdateNode _ => true
  | _ => false

/-- State threaded through the engine. -/
structure World where
  /-- Ledger: tracked memory capacity by pod name and node name. -/
  mem : String → String → Int
  /-- Ledger: persisted CPU map by pod name and node name. -/
  cpu : String → String → CPUMap
  /-- Field `CPU` of the in-memory node objects, by pointer identity. -/
  nodeCPU : Nat → CPUMap
  /-- Outcomes sent on the channel, oldest first. -/
  ch : List ReallocResourceMessage
  /-- Calls made to collaborators, oldest first. -/
  calls : List Call

/-- Send on the channel: `ch <- msg`. -/
def World.send (w : World) (m : ReallocResourceMessage) : World :=
  { w with ch := w.ch ++ [m] }

/-- Record a call. -/
def World.log (w : World) (c : Call) : World :=
  { w with calls := w.calls ++ [c] }

/-- Modelled from the spec: the store's `UpdateNodeMem(pod, node, delta, sign)`
(not in this file): "decrement the node's tracked memory capacity by" the
amount for sign "-", "give back" the amount for sign "+"; a failing write
leaves the ledger as it is. -/
def UpdateNodeMem (w : World) (podname nodename : String) (amount : Int)
    (plus : Bool) (ok : Bool) : World :=
  let w1 := w.log (.UpdateNodeMem podname nodename amount plus)
  if ok then
    { w1 with mem := fun p n =>
        if p = podname ∧ n = nodename then
          (if plus then w.mem p n + amount else w.mem p n - amount)
        else w.mem p n }
  else w1

/-- Modelled from the spec: the store's `UpdateNodeCPU(pod, node, delta, sign)`
(not in this file): adds the shares to, or subtracts them from, the node's
persisted CPU map; a failing write leaves the ledger as it is. -/
def UpdateNodeCPU (w : World) (podname nodename : String) (cpu : CPUMap)
    (plus : Bool) (ok : Bool) : World :=
  let w1 := w.log (.UpdateNodeCPU podname nodename cpu plus)
  if ok then
    { w1 with cpu := fun p n =>
        if p = podname ∧ n = nodename then
          (if plus then (w.cpu p n).Add cpu else (w.cpu p n).Sub cpu)
        else w.cpu p n }
  else w1

/-- Modelled from the spec: the store's `UpdateNode(node)` (not in this file):
"persist the updated CPU map for that node", that is the `CPU` field of the
node object; a failing write leaves the ledger as it is. -/
def UpdateNode (w : World) (node : Node) (ok : Bool) : World :=
  let w1 := w.log (.UpdateNode node)
  if ok then
    { w1 with cpu := fun p n =>
        if p = node.Podname ∧ n = node.Name then w.nodeCPU node.addr
        else w.cpu p n }
  else w1

/-! ## Memory-prior reallocation -/

/-- Loop of `checkNodesMemory` over the node entries (lines 118-125). -/
def checkNodesLoop (podname : String) (memory : Int) :
    NodeContainers → World → GoError × World
  | [], w => (none, w)
  | e :: rest, w =>
    if Int.tdiv e.node.MemCap memory < (e.containers.length : Int) then
      (some ("Not enough resource " ++ e.node.Name), w)
    else
      let w1 := UpdateNodeMem w podname e.node.Name
        (wrap64 ((e.containers.length : Int) * memory)) false e.replies.UpdateNodeMem
      if e.replies.UpdateNodeMem then checkNodesLoop podname memory rest w1
      else (some "UpdateNodeMem failed", w1)

/-- Function `checkNodesMemory` (lines 112-127). `lockOk` is the reply of
`c.Lock`; the deferred `Unlock` runs on every return after the lock is held. -/
def checkNodesMemory (lockOk : Bool) (podname : String)
    (nodeContainers : NodeContainers) (memory : Int) (w : World) : GoError × World :=
  let w1 := w.log (.Lock podname)
  if lockOk then
    let r := checkNodesLoop podname memory nodeContainers w1
    (r.1, r.2.log (.Unlock podname))
  else (some "lock failed", w1)

/-- Control flow out of a loop body: go on with the next element, `return`, or
the run-time panic of a nil pointer dereference. -/
inductive Flow where
  | next (w : World)
  | ret (w : World)
  | panic (w : World)

/-- Body of the loop of `doUpdateContainerWithMemoryPrior` (lines 163-209). After
an error of `Inspect` the read of `containerJSON.ID` at line 166 goes through
the nil embedded pointer and panics before anything is sent. -/
def updateContainer {F : Type} (P : Params F) (podname : String) (node : Node)
    (cpu : F) (memory : Int) (j : Job) (w : World) : Flow :=
  let container := j.container
  let w1 := w.log (.Inspect container.ID)
  match j.replies.Inspect with
  | none => .panic w1
  | some containerJSON =>
    let cpuQuota := P.toQuota cpu
    let newCPUQuota := wrap64 (containerJSON.CPUQuota + cpuQuota)
    let newMemory := wrap64 (containerJSON.Memory + memory)
    if newCPUQuota ≤ 0 ∨ newMemory ≤ P.minMemory then
      .next (w1.send ⟨containerJSON.ID, false⟩)
    else
      let w2 := w1.log (.reSetContainer containerJSON.ID node.Name)
      if j.replies.reSetContainer then
        let w3 :=
          if memory < 0 ∧ container.RawResource = false then
            UpdateNodeMem w2 podname node.Name (wrap64 (-memory)) true j.replies.UpdateNodeMem
          else w2
        let w4 := w3.log (.AddContainer container.ID newMemory)
        if j.replies.AddContainer then
          .next (w4.send ⟨containerJSON.ID, true⟩)
        else
          .ret (w4.send ⟨container.ID, false⟩)
      else
        let w3 := w2.send ⟨containerJSON.ID, false⟩
        if memory > 0 ∧ container.RawResource = false then
          .next (UpdateNodeMem w3 podname node.Name memory true j.replies.UpdateNodeMem)
        else .next w3

/-- Function `doUpdateContainerWithMemoryPrior` (lines 154-211): `next` when the
loop ends, `ret` at the `return` of line 207, `panic` when an iteration panics. -/
def doUpdateContainerWithMemoryPrior {F : Type} (P : Params F) (podname : String)
    (node : Node) (cpu : F) (memory : Int) : List Job → World → Flow
  | [], w => .next w
  | j :: rest, w =>
    match updateContainer P podname node cpu memory j w with
    | .next w1 => doUpdateContainerWithMemoryPrior P podname node cpu memory rest w1
    | .ret w1 => .ret w1
    | .panic w1 => .panic w1

/-- Failure outcome for every container of a list (lines 140-142, 291-293). -/
def reportFailed : List Job → World → World
  | [], w => w
  | j :: rest, w => reportFailed rest (w.send ⟨j.container.ID, false⟩)

/-- Failure outcome for every container of every node entry (lines 139-143). -/
def reportNodesFailed : NodeContainers → World → World
  | [], w => w
  | e :: rest, w => reportNodesFailed rest (reportFailed e.containers w)

/-- Apply loop of `reallocContainerWithMemoryPrior` (lines 149-151). A `return`
of `doUpdateContainerWithMemoryPrior` ends that call only; a panic ends
everything. -/
def updateNodes {F : Type} (P : Params F) (podname : String) (cpu : F) (memory : Int) :
    NodeContainers → World → Flow
  | [], w => .next w
  | e :: rest, w =>
    match doUpdateContainerWithMemoryPrior P podname e.node cpu memory e.containers w with
    | .next w1 => updateNodes P podname cpu memory rest w1
    | .ret w1 => updateNodes P podname cpu memory rest w1
    | .panic w1 => .panic w1

/-- Function `reallocContainerWithMemoryPrior` (lines 129-152). -/
def reallocContainerWithMemoryPrior {F : Type} (P : Params F) (lockOk : Bool) (pod : Pod)
    (nodeContainers : NodeContainers) (cpu : F) (memory : Int) (w : World) : Flow :=
  if memory > 0 then
    match checkNodesMemory lockOk pod.Name nodeContainers memory w with
    | (some _, w1) => .ret (reportNodesFailed nodeContainers w1)
    | (none, w1) => updateNodes P pod.Name cpu memory nodeContainers w1
  else updateNodes P pod.Name cpu memory nodeContainers w

/-! ## CPU-prior reallocation -/

/-- Return loop of `reallocNodesCPU` (lines 229-237): every container's CPU map
goes back to the ledger and to the node object. -/
def returnCPU (podname : String) (node : Node) : List Job → World → GoError × World
  | [], w => (none, w)
  | j :: rest, w =>
    let w1 := UpdateNodeCPU w podname node.Name j.container.CPU true j.replies.UpdateNodeCPUPlus
    if j.replies.UpdateNodeCPUPlus then
      returnCPU podname node rest
        { w1 with nodeCPU := fun a =>
            if a = node.addr then (w1.nodeCPU a).Add j.container.CPU else w1.nodeCPU a }
    else (some "UpdateNodeCPU failed", w1)

/-- Undo loop of `reallocNodesCPU` (lines 253-257). -/
def undoCPU (podname : String) (node : Node) : List Job → World → GoError × World
  | [], w => (none, w)
  | j :: rest, w =>
    let w1 := UpdateNodeCPU w podname node.Name j.container.CPU false j.replies.UpdateNodeCPUMinus
    if j.replies.UpdateNodeCPUMinus then undoCPU podname node rest w1
    else (some "UpdateNodeCPU failed", w1)

/-- Assignment `m[node] = v` on a `NodeCPUMap`. -/
def NodeCPUMap.set (node : Node) (v : List CPUMap) : NodeCPUMap → NodeCPUMap
  | [] => [(node, v)]
  | (n, x) :: rest =>
    if n.addr = node.addr then (n, v) :: rest else (n, x) :: NodeCPUMap.set node v rest

/-- Lookup `m[node]` on a `NodeCPUMap`. -/
def NodeCPUMap.get (node : Node) : NodeCPUMap → Option (List CPUMap)
  | [] => none
  | (n, x) :: rest => if n.addr = node.addr then some x else NodeCPUMap.get node rest

/-- Lines 268-271: `nodesCPUMap[cpu][node] = containersCPUMap`, creating the inner
map when the key `cpu` is absent. -/
def record {F : Type} (P : Params F) (cpu : F) (node : Node) (v : List CPUMap) :
    CPUNodeContainersMap F → CPUNodeContainersMap F
  | [] => [(cpu, [(node, v)])]
  | (k, m) :: rest =>
    if P.keyEq k cpu then (k, NodeCPUMap.set node v m) :: rest
    else (k, m) :: record P cpu node v rest

/-- Lookup `nodesCPUMap[cpu][node]`. -/
def recorded {F : Type} (P : Params F) (cpu : F) (node : Node) :
    CPUNodeContainersMap F → Option (List CPUMap)
  | [] => none
  | (k, m) :: rest =>
    if P.keyEq k cpu then NodeCPUMap.get node m else recorded P cpu node rest

/-- Body of the node loop of `reallocNodesCPU` (lines 229-272) for one node entry
of the bucket `cpu`; `acc` is `nodesCPUMap` so far. An error is a `return nil, err`. -/
def reallocNodeCPU {F : Type} (P : Params F) (podname : String) (cpu : F) (e : NodeJobs)
    (acc : CPUNodeContainersMap F) (w : World) :
    Except String (CPUNodeContainersMap F) × World :=
  match returnCPU podname e.node e.containers w with
  | (some err, w1) => (.error err, w1)
  | (none, w1) =>
    let w2 := w1.log (.SelectCPUNodes e.node.Name e.containers.length)
    match e.replies.SelectCPUNodes with
    | none =>
      match undoCPU podname e.node e.containers w2 with
      | (some err, w3) => (.error err, w3)
      | (none, w3) => (.error "SelectCPUNodes failed", w3)
    | some sel =>
      match sel.changed e.node.Name, sel.result e.node.Name with
      | some nodeCPUMap, some containersCPUMap =>
        let w3 : World := { w2 with nodeCPU := fun a =>
          if a = e.node.addr then nodeCPUMap else w2.nodeCPU a }
        let w4 := UpdateNode w3 e.node e.replies.UpdateNode
        if e.replies.UpdateNode then (.ok (record P cpu e.node containersCPUMap acc), w4)
        else (.error "UpdateNode failed", w4)
      | _, _ => (.ok acc, w2)

/-- Node loop of `reallocNodesCPU` (line 228) for one bucket. -/
def reallocBucketCPU {F : Type} (P : Params F) (podname : String) (cpu : F) :
    NodeContainers → CPUNodeContainersMap F → World →
      Except String (CPUNodeContainersMap F) × World
  | [], acc, w => (.ok acc, w)
  | e :: rest, acc, w =>
    match reallocNodeCPU P podname cpu e acc w with
    | (.error err, w1) => (.error err, w1)
    | (.ok acc1, w1) => reallocBucketCPU P podname cpu rest acc1 w1

/-- Bucket loop of `reallocNodesCPU` (line 227). -/
def reallocBucketsCPU {F : Type} (P : Params F) (podname : String) :
    CPUNodeContainers F → CPUNodeContainersMap F → World →
      Except String (CPUNodeContainersMap F) × World
  | [], acc, w => (.ok acc, w)
  | (cpu, nodesInfo) :: rest, acc, w =>
    match reallocBucketCPU P podname cpu nodesInfo acc w with
    | (.error err, w1) => (.error err, w1)
    | (.ok acc1, w1) => reallocBucketsCPU P podname rest acc1 w1

/-- Function `reallocNodesCPU` (lines 213-276). -/
def reallocNodesCPU {F : Type} (P : Params F) (lockOk : Bool) (podname : String)
    (nodesInfoMap : CPUNodeContainers F) (w : World) :
    Except String (CPUNodeContainersMap F) × World :=
  let w1 := w.log (.Lock podname)
  if lockOk then
    let r := reallocBucketsCPU P podname nodesInfoMap [] w1
    (r.1, r.2.log (.Unlock podname))
  else (.error "lock failed", w1)

/-- Control flow out of the loops of `doReallocContainersWithCPUPrior`: go on,
`return`, or the run-time panic of an index out of range. -/
inductive FlowCPU where
  | next (w : World)
  | ret (w : World)
  | panic (w : World)

/-- World carried by a `FlowCPU`. -/
def FlowCPU.world : FlowCPU → World
  | .next w => w
  | .ret w => w
  | .panic w => w

/-- Container loop of `doReallocContainersWithCPUPrior` (lines 315-334); `index` is
the position of the head of the list in the node's container list. -/
def reallocNodeContainers (node : Node) (cpuset : List CPUMap) :
    Nat → List Job → World → FlowCPU
  | _, [], w => .next w
  | index, j :: rest, w =>
    match cpuset.get? index with
    | none => .panic w
    | some _quota =>
      let container := j.container
      let w1 := w.log (.reSetContainer container.ID node.Name)
      let w2 := if j.replies.reSetContainer then w1 else w1.send ⟨container.ID, false⟩
      let w3 := w2.log (.AddContainer container.ID container.Memory)
      if j.replies.AddContainer then
        reallocNodeContainers node cpuset (index + 1) rest (w3.send ⟨container.ID, true⟩)
      else .ret (w3.send ⟨container.ID, false⟩)

/-- Lookup `nodesInfoMap[node]` on a `NodeContainers`; a missing key gives the
nil slice. -/
def containersOf (node : Node) : NodeContainers → List Job
  | [] => []
  | e :: rest => if e.node.addr = node.addr then e.containers else containersOf node rest

/-- Function `doReallocContainersWithCPUPrior` (lines 305-336). -/
def doReallocContainersWithCPUPrior (nodesInfoMap : NodeContainers) :
    NodeCPUMap → World → FlowCPU
  | [], w => .next w
  | (node, cpuset) :: rest, w =>
    match reallocNodeContainers node cpuset 0 (containersOf node nodesInfoMap) w with
    | .next w1 => doReallocContainersWithCPUPrior nodesInfoMap rest w1
    | .ret w1 => .ret w1
    | .panic w1 => .panic w1

/-- Lookup `nodesInfoMap[cpu]` on a `CPUNodeContainers`; a missing key gives the
nil map. -/
def bucketOf {F : Type} (P : Params F) (cpu : F) : CPUNodeContainers F → NodeContainers
  | [] => []
  | (k, m) :: rest => if P.keyEq k cpu then m else bucketOf P cpu rest

/-- Failure outcome for every container of every bucket (lines 289-295). -/
def reportBucketsFailed {F : Type} : CPUNodeContainers F → World → World
  | [], w => w
  | (_, m) :: rest, w => reportBucketsFailed rest (reportNodesFailed m w)

/-- Apply loop of `reallocContainersWithCPUPrior` (lines 300-302). A `return` of
`doReallocContainersWithCPUPrior` ends that call only; a panic ends everything. -/
def applyBuckets {F : Type} (P : Params F) (nodesInfoMap : CPUNodeContainers F) :
    CPUNodeContainersMap F → World → FlowCPU
  | [], w => .next w
  | (cpu, nodesCPUResult) :: rest, w =>
    match doReallocContainersWithCPUPrior (bucketOf P cpu nodesInfoMap) nodesCPUResult w with
    | .panic w1 => .panic w1
    | .next w1 => applyBuckets P nodesInfoMap rest w1
    | .ret w1 => applyBuckets P nodesInfoMap rest w1

/-- Function `reallocContainersWithCPUPrior` (lines 279-303). -/
def reallocContainersWithCPUPrior {F : Type} (P : Params F) (lockOk : Bool) (pod : Pod)
    (nodesInfoMap : CPUNodeContainers F) (w : World) : FlowCPU :=
  match reallocNodesCPU P lockOk pod.Name nodesInfoMap w with
  | (.error _, w1) => .next (reportBucketsFailed nodesInfoMap w1)
  | (.ok nodesCPUMap, w1) => applyBuckets P nodesInfoMap nodesCPUMap w1

/-! ## Grouping and classification (`ReallocResource`) -/

/-- Local maps of `ReallocResource` (lines 23-28). -/
structure Groups (F : Type) where
  containersInfo : List (Pod × NodeContainers)
  cpuContainersInfo : List (Pod × CPUNodeContainers F)
  rawResourceContainers : NodeContainers
  nodeCache : List (String × Node)

/-- Lookup `nodeCache[name]`. -/
def cacheGet (name : String) : List (String × Node) → Option Node
  | [] => none
  | (k, node) :: rest => if k = name then some node else cacheGet name rest

/-- Update `m[node] = append(m[node], container)` on a `NodeContainers`; a new
entry takes its node level replies from the container that opens it. -/
def appendContainer (node : Node) (j : Job) : NodeContainers → NodeContainers
  | [] => [⟨node, [j], j.replies.entry⟩]
  | e :: rest =>
    if e.node.addr = node.addr then { e with containers := e.containers ++ [j] } :: rest
    else e :: appendContainer node j rest

/-- Lines 53-59: `containersInfo[pod][node] = append(containersInfo[pod][node], container)`. -/
def appendPodContainer (pod : Pod) (node : Node) (j : Job) :
    List (Pod × NodeContainers) → List (Pod × NodeContainers)
  | [] => [(pod, appendContainer node j [])]
  | (k, m) :: rest =>
    if k = pod then (k, appendContainer node j m) :: rest
    else (k, m) :: appendPodContainer pod node j rest

/-- Lines 70-74 on the bucket map of one pod. -/
def appendBucketContainer {F : Type} (P : Params F) (key : F) (node : Node) (j : Job) :
    CPUNodeContainers F → CPUNodeContainers F
  | [] => [(key, appendContainer node j [])]
  | (k, m) :: rest =>
    if P.keyEq k key then (k, appendContainer node j m) :: rest
    else (k, m) :: appendBucketContainer P key node j rest

/-- Lines 62-65 and 70-74 on `cpuContainersInfo`. -/
def appendCPUContainer {F : Type} (P : Params F) (pod : Pod) (key : F) (node : Node)
    (j : Job) : List (Pod × CPUNodeContainers F) → List (Pod × CPUNodeContainers F)
  | [] => [(pod, appendBucketContainer P key node j [])]
  | (k, m) :: rest =>
    if k = pod then (k, appendBucketContainer P key node j m) :: rest
    else (k, m) :: appendCPUContainer P pod key node j rest

/-- Body of the grouping loop of `ReallocResource` (lines 31-75) for one
container; an error is a `return nil, err`. -/
def classifyContainer {F : Type} (P : Params F) (cpu : F) (j : Job) (g : Groups F)
    (w : World) : Except String (Groups F) × World :=
  let container := j.container
  let cached : Option (Node × List (String × Node)) × World :=
    match cacheGet container.Nodename g.nodeCache with
    | some node => (some (node, g.nodeCache), w)
    | none =>
      match j.replies.GetNode with
      | none => (none, w.log (.GetNode container.Podname container.Nodename))
      | some node =>
        (some (node, (container.Nodename, node) :: g.nodeCache),
          w.log (.GetNode container.Podname container.Nodename))
  match cached with
  | (none, w1) => (.error "GetNode failed", w1)
  | (some (node, nodeCache), w1) =>
    let g1 : Groups F := { g with nodeCache := nodeCache }
    if container.RawResource then
      (.ok { g1 with
        rawResourceContainers := appendContainer node j g1.rawResourceContainers }, w1)
    else
      let w2 := w1.log (.GetPod container.Podname)
      match j.replies.GetPod with
      | none => (.error "GetPod failed", w2)
      | some pod =>
        let g2 : Groups F :=
          { g1 with containersInfo := appendPodContainer pod node j g1.containersInfo }
        if pod.Favor = Favor.CPU_PRIOR then
          let newCPURequire := P.add (P.calculateCPUUsage container) cpu
          if P.ltZero newCPURequire then (.error "Cpu can not below zero", w2)
          else
            (.ok { g2 with cpuContainersInfo :=
              appendCPUContainer P pod newCPURequire node j g2.cpuContainersInfo }, w2)
        else (.ok g2, w2)

/-- Grouping loop of `ReallocResource` (line 30). -/
def classify {F : Type} (P : Params F) (cpu : F) :
    List Job → Groups F → World → Except String (Groups F) × World
  | [], g, w => (.ok g, w)
  | j :: rest, g, w =>
    match classifyContainer P cpu j g w with
    | (.error err, w1) => (.error err, w1)
    | (.ok g1, w1) => classify P cpu rest g1 w1

/-- Function `ReallocResource` (lines 15-110). `containers` is the reply of
`GetContainers` (`none` is an error). The goroutine of lines 79-108 runs its
tasks concurrently; it is the parameter `spawn`, which gets the groups, the
deltas and the world. The returned error is `none` exactly when a channel is
returned. -/
def ReallocResource {F : Type} (P : Params F)
    (spawn : Groups F → F → Int → World → World)
    (containers : Option (List Job)) (cpu : F) (mem : Int) (w : World) : GoError × World :=
  let w1 := w.log .GetContainers
  match containers with
  | none => (some "GetContainers failed", w1)
  | some cs =>
    match classify P cpu cs ⟨[], [], [], []⟩ w1 with
    | (.error err, w2) => (some err, w2)
    | (.ok g, w2) => (none, spawn g cpu mem w2)

/-! ## Quantities named by the specification -/

/-- Amount reserved by the capacity check on the ledger entry of the node named
`name`: the sum, over the entries of the batch for that node, of the amount
written by `checkNodesMemory`. -/
def reservedOn (memory : Int) (name : String) : NodeContainers → Int
  | [] => 0
  | e :: rest =>
    (if e.node.Name = name then wrap64 ((e.containers.length : Int) * memory) else 0)
      + reservedOn memory name rest

/-- World carried by a `Flow`. -/
def Flow.world : Flow → World
  | .next w => w
  | .ret w => w
  | .panic w => w

/-- Whether a `Flow` is a panic. -/
def Flow.panicked : Flow → Bool
  | .panic _ => true
  | _ => false

/-- Record shown by the inspection of the container; the zero record stands in
when the inspection fails (the code panics there). -/
def inspected (j : Job) : ContainerJSON :=
  match j.replies.Inspect with
  | some c => c
  | none => ⟨"", 0, 0⟩

/-- The container's new resources pass the test of line 173. -/
def validResources {F : Type} (P : Params F) (cpu : F) (memory : Int) (j : Job) : Bool :=
  decide (¬ (wrap64 ((inspected j).CPUQuota + P.toQuota cpu) ≤ 0 ∨
    wrap64 ((inspected j).Memory + memory) ≤ P.minMemory))

/-- The runtime update of the container is attempted: its inspection succeeded
and its new resources are valid. -/
def runtimeTried {F : Type} (P : Params F) (cpu : F) (memory : Int) (j : Job) : Bool :=
  j.replies.Inspect.isSome && validResources P cpu memory j

/-- The runtime update of the container is attempted and fails. -/
def runtimeFailed {F : Type} (P : Params F) (cpu : F) (memory : Int) (j : Job) : Bool :=
  runtimeTried P cpu memory j && !j.replies.reSetContainer

/-- The runtime update of the container is attempted and succeeds. -/
def runtimeSucceeded {F : Type} (P : Params F) (cpu : F) (memory : Int) (j : Job) : Bool :=
  runtimeTried P cpu memory j && j.replies.reSetContainer

/-- The metadata persistence of the container is attempted (after a successful
runtime update) and fails. -/
def persistFailed {F : Type} (P : Params F) (cpu : F) (memory : Int) (j : Job) : Bool :=
  runtimeSucceeded P cpu memory j && !j.replies.AddContainer

/-- Runtime update and metadata persistence of the container both succeed. -/
def fullySucceeded {F : Type} (P : Params F) (cpu : F) (memory : Int) (j : Job) : Bool :=
  runtimeSucceeded P cpu memory j && j.replies.AddContainer

/-- Containers up to and including the first one whose persistence fails; the
whole list when there is none. -/
def processed {F : Type} (P : Params F) (cpu : F) (memory : Int) : List Job → List Job
  | [] => []
  | j :: rest =>
    if persistFailed P cpu memory j then [j] else j :: processed P cpu memory rest

/-- Outcome expected for a processed container: a success exactly when runtime
update and persistence both succeed; the ID is the one shown by the inspection,
or the container's own ID when its persistence fails. -/
def outcomeOf {F : Type} (P : Params F) (cpu : F) (memory : Int) (j : Job) :
    ReallocResourceMessage :=
  ⟨if persistFailed P cpu memory j then j.container.ID else (inspected j).ID,
    fullySucceeded P cpu memory j⟩

/-- The container gives memory back to its node: the delta is > 0 and its runtime
update failed, or the delta is < 0 and its runtime update succeeded. -/
def givesBack {F : Type} (P : Params F) (cpu : F) (memory : Int) (j : Job) : Bool :=
  (decide (memory > 0) && runtimeFailed P cpu memory j) ||
    (decide (memory < 0) && runtimeSucceeded P cpu memory j)

/-- Shares held by the containers of a list, core by core. -/
def heldCPU : List Job → CPUMap
  | [] => fun _ => 0
  | j :: rest => fun label => j.container.CPU label + heldCPU rest label

/-! ## Concrete inputs -/

/-- CPU map without shares. -/
def noCPU : CPUMap := fun _ => 0

/-- CPU map with one core. -/
def oneCore (label : String) (share : Int) : CPUMap :=
  fun l => if l = label then share else 0

/-- Node level replies: every write succeeds, the scheduler fails. -/
def nodeOk : NodeReplies := ⟨true, none, true⟩

/-- Container on node `nodename` of pod "pod" holding `memory` and the CPU map
`cpu`, whose inspection shows quota 100000 and the same memory, with the given
replies of `reSetContainer`, `AddContainer` and `Inspect`; store writes succeed. -/
def mkJob (id nodename : String) (raw : Bool) (memory : Int) (cpu : CPUMap)
    (inspectOk reSetOk addOk : Bool) : Job :=
  { container := ⟨id, "pod", nodename, cpu, memory, raw⟩
    replies :=
      { Inspect := if inspectOk then some ⟨id, 100000, memory⟩ else none
        reSetContainer := reSetOk
        UpdateNodeMem := true
        AddContainer := addOk
        UpdateNodeCPUPlus := true
        UpdateNodeCPUMinus := true
        GetNode := some ⟨1, nodename, "pod", 1024⟩
        GetPod := some ⟨1, "pod", Favor.CPU_PRIOR⟩
        entry := nodeOk } }

/-- World in which every node has 1024 of memory capacity and 10 shares on
core "0", with an empty channel and an empty log. -/
def world0 : World :=
  { mem := fun _ _ => 1024
    cpu := fun _ _ => oneCore "0" 10
    nodeCPU := fun _ => oneCore "0" 10
    ch := []
    calls := [] }

/-- World like `world0` but with 100 of memory capacity on node "n2". -/
def world2 : World := { world0 with mem := fun _ n => if n = "n2" then 100 else 1024 }

/-- Parameters over integer "floats": shares in units, quota 1000 per unit. -/
def intParams : Params Int :=
  { add := fun a b => a + b
    ltZero := fun a => decide (a < 0)
    keyEq := fun a b => decide (a = b)
    toQuota := fun a => a * 1000
    calculateCPUUsage := fun c => c.CPU "0"
    minMemory := 4 }

/-- Node "n1" with 1024 of memory capacity. -/
def node1 : Node := ⟨1, "n1", "pod", 1024⟩

/-- Node "n2" with 100 of memory capacity. -/
def node2 : Node := ⟨2, "n2", "pod", 100⟩

/-- Pod "pod" with memory-prior policy. -/
def memPod : Pod := ⟨1, "pod", Favor.MEM_PRIOR⟩

/-- Two containers of 512 on "n1" that update without a failure. -/
def twoJobs : List Job :=
  [mkJob "c1" "n1" false 512 noCPU true true true,
   mkJob "c2" "n1" false 512 noCPU true true true]

/-- Batch of scenario 1: node "n1" (capacity 1024) with two containers. -/
def batch1 : NodeContainers := [⟨node1, twoJobs, nodeOk⟩]

/-- Batch of two nodes: "n1" (capacity 1024) with one container, then "n2"
(capacity 100) with one container. -/
def batch2 : NodeContainers :=
  [⟨node1, [mkJob "c1" "n1" false 512 noCPU true true true], nodeOk⟩,
   ⟨node2, [mkJob "c2" "n2" false 512 noCPU true true true], nodeOk⟩]

/-- Three raw-resource containers on "n1": the first updates, the runtime
update of the second fails, the persistence of the third fails. -/
def rawJobs : List Job :=
  [mkJob "r1" "n1" true 512 noCPU true true true,
   mkJob "r2" "n1" true 512 noCPU true false true,
   mkJob "r3" "n1" true 512 noCPU true true false]

/-- Four containers on "n1": the first updates, the runtime update of the second
fails, the persistence of the third fails, the fourth would update. -/
def fourJobs : List Job :=
  [mkJob "c1" "n1" false 512 noCPU true true true,
   mkJob "c2" "n1" false 512 noCPU true false true,
   mkJob "c3" "n1" false 512 noCPU true true false,
   mkJob "c4" "n1" false 512 noCPU true true true]

/-- Container "c1" on "n1" whose inspection returns an error. -/
def jobInspectFails : Job := mkJob "c1" "n1" false 512 noCPU false true true

/-- Container "c2" on "n1" holding 512 that updates without a failure. -/
def jobHealthy : Job := mkJob "c2" "n1" false 512 noCPU true true true

/-- Container "c1" on "n1" whose inspection shows the memory limit -1 and that
updates without a failure. -/
def jobMinusOne : Job :=
  { container := ⟨"c1", "pod", "n1", noCPU, 512, false⟩
    replies := { (mkJob "c1" "n1" false 512 noCPU true true true).replies with
      Inspect := some ⟨"c1", 100000, -1⟩ } }

/-- Whether a result of `reallocNodesCPU` is `nil` error. -/
def resultOk {F : Type} : Except String (CPUNodeContainersMap F) → Bool
  | .ok _ => true
  | .error _ => false

/-- Whether a result of `reallocNodesCPU` holds an assignment list for `node`
under the bucket `cpu`. -/
def resultHas {F : Type} (P : Params F) (cpu : F) (node : Node) :
    Except String (CPUNodeContainersMap F) → Bool
  | .ok m => (recorded P cpu node m).isSome
  | .error _ => false

/-- Container "c1" on "n1" holding 5 shares of core "0"; its runtime update
fails and its persistence succeeds. -/
def jobRuntimeFails : Job := mkJob "c1" "n1" false 512 (oneCore "0" 5) true false true

/-- Container "c1" on "n1" holding 5 shares of core "0" that updates without a
failure. -/
def jobA : Job := mkJob "c1" "n1" false 512 (oneCore "0" 5) true true true

/-- Container "c2" on "n1" holding 8 shares of core "0" that updates without a
failure. -/
def jobB : Job := mkJob "c2" "n1" false 512 (oneCore "0" 8) true true true

/-- Scheduler answer for "n1": one assignment of 7 shares on core "0" and the
changed map with 8 shares left on core "0". -/
def selChanged : Selection :=
  { result := fun n => if n = "n1" then some [oneCore "0" 7] else none
    changed := fun n => if n = "n1" then some (oneCore "0" 8) else none }

/-- Scheduler answer for "n1": one assignment of 7 shares on core "0" and an
empty changed map. -/
def selUnchanged : Selection :=
  { result := fun n => if n = "n1" then some [oneCore "0" 7] else none
    changed := fun _ => none }

/-- Two buckets that both hold node "n1": share 7 with container "c1", for which
the scheduler succeeds, then share 20 with container "c2", for which the
scheduler returns an error. -/
def twoBuckets : CPUNodeContainers Int :=
  [(7, [⟨node1, [jobA], ⟨true, some selChanged, true⟩⟩]),
   (20, [⟨node1, [jobB], ⟨true, none, true⟩⟩])]

/-- Node entry of "n1" with container "c1"; the scheduler succeeds with an
assignment list and no changed entry. -/
def unchangedEntry : NodeJobs := ⟨node1, [jobA], ⟨true, some selUnchanged, true⟩⟩

/-- One bucket of share 7 holding `unchangedEntry`. -/
def unchangedBucket : CPUNodeContainers Int := [(7, [unchangedEntry])]

/-- Pod "pod" with CPU-prior policy. -/
def cpuPod : Pod := ⟨1, "pod", Favor.CPU_PRIOR⟩

/-- Between `w` and `w1` only reads of the store happened: ledger, node objects
and channel are the same, and the log grew by read calls only. -/
def OnlyReads (w w1 : World) : Prop :=
  w1.mem = w.mem ∧ w1.cpu = w.cpu ∧ w1.nodeCPU = w.nodeCPU ∧ w1.ch = w.ch ∧
    ∃ extra, w1.calls = w.calls ++ extra ∧ ∀ c ∈ extra, c.isRead = true

/-- Whether a grouping result is an error. -/
def isError {F : Type} : Except String (Groups F) → Bool
  | .ok _ => false
  | .error _ => true

/-- Container "c1" of the CPU-prior pod, holding 3 shares of core "0". -/
def jobShare3 : Job := mkJob "c1" "n1" false 512 (oneCore "0" 3) true true true

/-- Goroutine body used in examples: sends one outcome. -/
def spawnOne : Groups Int → Int → Int → World → World :=
  fun _ _ _ w => w.send ⟨"spawned", true⟩

/-! ## Theorems -/

/-! ### Integer arithmetic -/

theorem wrap64_of_range {x : Int} (h0 : -(2 ^ 63) ≤ x) (h1 : x < 2 ^ 63) : wrap64 x = x := by
  unfold wrap64
  omega

theorem tdiv_le_iff_fdiv_le {M m c : Int} (hm : 0 < m) (hc : 1 ≤ c) :
    c ≤ Int.tdiv M m ↔ c ≤ Int.fdiv M m := by
  rcases le_or_lt 0 M with h | h
  · rw [Int.tdiv_eq_ediv h hm.le, Int.fdiv_eq_ediv _ hm.le]
  · have h1 : Int.tdiv M m ≤ 0 := by
      have : Int.tdiv M m = -(Int.tdiv (-M) m) := by
        rw [Int.neg_tdiv, neg_neg]
      rw [this]
      have := Int.tdiv_nonneg (a := -M) (b := m) (by omega) hm.le
      omega
    have h2 : Int.fdiv M m < 0 := by
      rw [Int.fdiv_eq_ediv _ hm.le]
      exact Int.ediv_neg' h hm
    constructor <;> intro h3 <;> omega

theorem mul_le_of_le_tdiv {M m c : Int} (hm : 0 < m) (hc : 0 ≤ c) (h : c ≤ Int.tdiv M m) :
    (0 ≤ M → c * m ≤ M) ∧ (M < 0 → c = 0) := by
  constructor
  · intro h0
    rw [Int.tdiv_eq_ediv h0 hm.le] at h
    exact (Int.le_ediv_iff_mul_le hm).1 h
  · intro h0
    have h1 : Int.tdiv M m ≤ 0 := by
      have : Int.tdiv M m = -(Int.tdiv (-M) m) := by
        rw [Int.neg_tdiv, neg_neg]
      rw [this]
      have := Int.tdiv_nonneg (a := -M) (b := m) (by omega) hm.le
      omega
    omega

/-! ### Capacity check -/

theorem checkNodesLoop_ok_iff (podname : String) (memory : Int) (l : NodeContainers)
    (w : World) (hstore : ∀ e ∈ l, e.replies.UpdateNodeMem = true) :
    (checkNodesLoop podname memory l w).1 = none ↔
      ∀ e ∈ l, (e.containers.length : Int) ≤ Int.tdiv e.node.MemCap memory := by
  induction l generalizing w with
  | nil => simp [checkNodesLoop]
  | cons e rest ih =>
    have he := hstore e (by simp)
    have hr : ∀ x ∈ rest, x.replies.UpdateNodeMem = true :=
      fun x hx => hstore x (by simp [hx])
    by_cases hlt : Int.tdiv e.node.MemCap memory < (e.containers.length : Int)
    · simp only [checkNodesLoop, hlt, if_true]
      constructor
      · intro h; simp at h
      · intro h
        have := h e (by simp)
        omega
    · simp only [checkNodesLoop, hlt, if_false, he, if_true]
      rw [ih _ hr]
      simp only [List.mem_cons, forall_eq_or_imp]
      constructor
      · intro h; exact ⟨by omega, h⟩
      · intro h; exact h.2

theorem checkNodesLoop_mem (podname : String) (memory : Int) (l : NodeContainers)
    (w : World) (hok : (checkNodesLoop podname memory l w).1 = none) (n : String) :
    (checkNodesLoop podname memory l w).2.mem podname n
      = w.mem podname n - reservedOn memory n l := by
  induction l generalizing w with
  | nil => simp [checkNodesLoop, reservedOn]
  | cons e rest ih =>
    by_cases hlt : Int.tdiv e.node.MemCap memory < (e.containers.length : Int)
    · simp [checkNodesLoop, hlt] at hok
    · cases he : e.replies.UpdateNodeMem with
      | false => simp [checkNodesLoop, hlt, he] at hok
      | true =>
        simp only [checkNodesLoop, hlt, if_false, he, if_true] at hok ⊢
        rw [ih _ hok]
        simp only [UpdateNodeMem, World.log, reservedOn, if_true, true_and]
        by_cases hn : n = e.node.Name
        · subst hn; simp; ring
        · have hn2 : ¬ e.node.Name = n := fun h => hn h.symm
          simp [hn, hn2]

theorem reservedOn_of_not_mem (memory : Int) (name : String) (l : NodeContainers)
    (h : ∀ e ∈ l, e.node.Name ≠ name) : reservedOn memory name l = 0 := by
  induction l with
  | nil => rfl
  | cons e rest ih =>
    have h1 := h e (by simp)
    simp [reservedOn, h1, ih (fun x hx => h x (by simp [hx]))]

theorem reservedOn_of_mem (memory : Int) (l : NodeContainers)
    (hnames : l.Pairwise (fun a b => a.node.Name ≠ b.node.Name)) (e : NodeJobs)
    (he : e ∈ l) :
    reservedOn memory e.node.Name l = wrap64 ((e.containers.length : Int) * memory) := by
  induction l with
  | nil => simp at he
  | cons x rest ih =>
    rw [List.pairwise_cons] at hnames
    rcases List.mem_cons.1 he with h | h
    · subst h
      simp [reservedOn, reservedOn_of_not_mem memory e.node.Name rest
        (fun y hy => (hnames.1 y hy).symm)]
    · have hx : x.node.Name ≠ e.node.Name := hnames.1 e h
      simp [reservedOn, hx, ih hnames.2 h]

theorem checkNodesLoop_ok_imp (podname : String) (memory : Int) (l : NodeContainers)
    (w : World) (hok : (checkNodesLoop podname memory l w).1 = none) :
    ∀ e ∈ l, (e.containers.length : Int) ≤ Int.tdiv e.node.MemCap memory := by
  induction l generalizing w with
  | nil => simp
  | cons e rest ih =>
    by_cases hlt : Int.tdiv e.node.MemCap memory < (e.containers.length : Int)
    · simp [checkNodesLoop, hlt] at hok
    · cases he : e.replies.UpdateNodeMem with
      | false => simp [checkNodesLoop, hlt, he] at hok
      | true =>
        simp only [checkNodesLoop, hlt, if_false, he, if_true] at hok
        simp only [List.mem_cons, forall_eq_or_imp]
        exact ⟨by omega, ih _ hok⟩

theorem checkNodesMemory_locked (podname : String) (l : NodeContainers) (memory : Int)
    (w : World) :
    (checkNodesMemory true podname l memory w).1
        = (checkNodesLoop podname memory l (w.log (.Lock podname))).1 ∧
    (checkNodesMemory true podname l memory w).2.mem
        = (checkNodesLoop podname memory l (w.log (.Lock podname))).2.mem := by
  simp [checkNodesMemory, World.log]

theorem length_pos_of_ne_nil {l : List Job} (h : l ≠ []) : (1 : Int) ≤ (l.length : Int) := by
  cases l with
  | nil => exact absurd rfl h
  | cons a t => simp only [List.length_cons]; omega

/-- C1. For a memory delta > 0, when the pod lock is acquired and every store
write succeeds, `checkNodesMemory` succeeds exactly when every node of the batch
has `floor(MemCap / delta)` at least its number of containers, and on success the
tracked memory capacity of every node of the batch is lower than before by
exactly (number of its containers) * delta. A batch has one entry per node, each
with at least one container, and `MemCap` is an `int64`. -/
theorem checkNodesMemory_succeeds_iff_and_reserves (podname : String)
    (batch : NodeContainers) (memory : Int) (w : World)
    (hmem : 0 < memory)
    (hcap : ∀ e ∈ batch, isInt64 e.node.MemCap)
    (hne : ∀ e ∈ batch, e.containers ≠ [])
    (hnames : batch.Pairwise (fun a b => a.node.Name ≠ b.node.Name))
    (hstore : ∀ e ∈ batch, e.replies.UpdateNodeMem = true) :
    ((checkNodesMemory true podname batch memory w).1 = none ↔
        ∀ e ∈ batch, (e.containers.length : Int) ≤ Int.fdiv e.node.MemCap memory) ∧
    ((checkNodesMemory true podname batch memory w).1 = none →
        ∀ e ∈ batch,
          (checkNodesMemory true podname batch memory w).2.mem podname e.node.Name
            = w.mem podname e.node.Name - (e.containers.length : Int) * memory) := by
  obtain ⟨h1, h2⟩ := checkNodesMemory_locked podname batch memory w
  rw [h1, h2]
  constructor
  · rw [checkNodesLoop_ok_iff podname memory batch _ hstore]
    constructor
    · intro h e he
      exact (tdiv_le_iff_fdiv_le hmem (length_pos_of_ne_nil (hne e he))).1 (h e he)
    · intro h e he
      exact (tdiv_le_iff_fdiv_le hmem (length_pos_of_ne_nil (hne e he))).2 (h e he)
  · intro hok e he
    rw [checkNodesLoop_mem podname memory batch _ hok, reservedOn_of_mem memory batch hnames e he]
    have hle := checkNodesLoop_ok_imp podname memory batch _ hok e he
    have hpos := length_pos_of_ne_nil (hne e he)
    obtain ⟨ha, hb⟩ := mul_le_of_le_tdiv hmem (by omega) hle
    have hM : 0 ≤ e.node.MemCap := by
      by_contra hneg
      have := hb (by omega)
      omega
    have hprod : 0 ≤ (e.containers.length : Int) * memory :=
      Int.mul_nonneg (by omega) hmem.le
    have hlt := (hcap e he).2
    rw [wrap64_of_range (by omega) (by have := ha hM; omega)]
    simp [World.log]

/-- Witness of C1 at scenario 1: one node with capacity 1024 and two containers,
delta 256: the check succeeds and the capacity goes from 1024 to 512. -/
theorem checkNodesMemory_succeeds_iff_and_reserves_witness :
    (checkNodesMemory true "pod" batch1 256 world0).1 = none ∧
    (checkNodesMemory true "pod" batch1 256 world0).2.mem "pod" "n1" = 1024 - 2 * 256 := by
  have h := checkNodesMemory_succeeds_iff_and_reserves "pod" batch1 256 world0
    (by decide) (by decide) (by simp [batch1, twoJobs]) (by decide) (by decide)
  have hok : (checkNodesMemory true "pod" batch1 256 world0).1 = none :=
    h.1.2 (by decide)
  exact ⟨hok, h.2 hok ⟨node1, twoJobs, nodeOk⟩ (by simp [batch1])⟩

/-- C10. For a memory delta > 0 and a batch in which every node occurs once with
at least one container and the `MemCap` snapshot equals the ledger's tracked
capacity: a node with negative `MemCap` makes `checkNodesMemory` fail, and after
a successful `checkNodesMemory` the reservation `count * delta` of every node
does not overflow, does not exceed `MemCap`, and leaves a tracked capacity >= 0. -/
theorem checkNodesMemory_keeps_capacity_nonneg (lockOk : Bool) (podname : String)
    (batch : NodeContainers) (memory : Int) (w : World)
    (hmem : 0 < memory)
    (hcap : ∀ e ∈ batch, isInt64 e.node.MemCap)
    (hne : ∀ e ∈ batch, e.containers ≠ [])
    (hnames : batch.Pairwise (fun a b => a.node.Name ≠ b.node.Name))
    (hsnap : ∀ e ∈ batch, e.node.MemCap = w.mem podname e.node.Name) :
    ((∃ e ∈ batch, e.node.MemCap < 0) →
        (checkNodesMemory lockOk podname batch memory w).1 ≠ none) ∧
    ((checkNodesMemory lockOk podname batch memory w).1 = none →
        ∀ e ∈ batch,
          wrap64 ((e.containers.length : Int) * memory) = (e.containers.length : Int) * memory ∧
          (e.containers.length : Int) * memory ≤ e.node.MemCap ∧
          0 ≤ (checkNodesMemory lockOk podname batch memory w).2.mem podname e.node.Name) := by
  cases lockOk with
  | false => simp [checkNodesMemory]
  | true =>
    obtain ⟨h1, h2⟩ := checkNodesMemory_locked podname batch memory w
    rw [h1, h2]
    have key : (checkNodesLoop podname memory batch (w.log (.Lock podname))).1 = none →
        ∀ e ∈ batch, 0 ≤ e.node.MemCap ∧
          (e.containers.length : Int) * memory ≤ e.node.MemCap := by
      intro hok e he
      have hle := checkNodesLoop_ok_imp podname memory batch _ hok e he
      have hpos := length_pos_of_ne_nil (hne e he)
      obtain ⟨ha, hb⟩ := mul_le_of_le_tdiv hmem (by omega) hle
      have hM : 0 ≤ e.node.MemCap := by
        by_contra hneg
        have := hb (by omega)
        omega
      exact ⟨hM, ha hM⟩
    constructor
    · rintro ⟨e, he, hneg⟩ hok
      have := (key hok e he).1
      omega
    · intro hok e he
      obtain ⟨hM, hle⟩ := key hok e he
      have hprod : 0 ≤ (e.containers.length : Int) * memory :=
        Int.mul_nonneg (by omega) hmem.le
      have hlt := (hcap e he).2
      have hw : wrap64 ((e.containers.length : Int) * memory)
          = (e.containers.length : Int) * memory :=
        wrap64_of_range (by omega) (by omega)
      refine ⟨hw, hle, ?_⟩
      rw [checkNodesLoop_mem podname memory batch _ hok,
        reservedOn_of_mem memory batch hnames e he, hw]
      have hs := hsnap e he
      simp only [World.log]
      omega

/-- Witness of C10 at scenario 1: capacity 1024, two containers, delta 256: the
reservation 512 fits and the tracked capacity stays >= 0. -/
theorem checkNodesMemory_keeps_capacity_nonneg_witness :
    (2 : Int) * 256 ≤ node1.MemCap ∧
    0 ≤ (checkNodesMemory true "pod" batch1 256 world0).2.mem "pod" "n1" := by
  have h := (checkNodesMemory_keeps_capacity_nonneg true "pod" batch1 256 world0
    (by decide) (by decide) (by simp [batch1, twoJobs]) (by decide) (by decide)).2
    (by decide) ⟨node1, twoJobs, nodeOk⟩ (by simp [batch1])
  exact ⟨h.2.1, h.2.2⟩

/-- C2 at a failing input. Batch of two nodes processed in the order "n1"
(capacity 1024, one container), "n2" (capacity 100, one container), delta 256.
The check fails at "n2", whose `floor(100 / 256) = 0` is below its container
count 1, both containers are reported failed, and the tracked capacity of "n1"
is 768 after the call instead of the 1024 it had before. -/
theorem reallocContainerWithMemoryPrior_keeps_reservation_on_failure :
    Int.fdiv node2.MemCap 256 < 1 ∧
    (checkNodesMemory true "pod" batch2 256 world2).1 ≠ none ∧
    world2.mem "pod" "n1" = 1024 ∧
    (reallocContainerWithMemoryPrior intParams true memPod batch2 0 256 world2).world.mem
      "pod" "n1" = 768 ∧
    (reallocContainerWithMemoryPrior intParams true memPod batch2 0 256 world2).world.ch
      = [⟨"c1", false⟩, ⟨"c2", false⟩] := by
  decide

/-! ### Store writes -/

@[simp]
theorem UpdateNodeMem_ch (w : World) (p n : String) (a : Int) (plus ok : Bool) :
    (UpdateNodeMem w p n a plus ok).ch = w.ch := by
  cases ok <;> rfl

@[simp]
theorem UpdateNodeMem_cpu (w : World) (p n : String) (a : Int) (plus ok : Bool) :
    (UpdateNodeMem w p n a plus ok).cpu = w.cpu := by
  cases ok <;> rfl

@[simp]
theorem UpdateNodeMem_nodeCPU (w : World) (p n : String) (a : Int) (plus ok : Bool) :
    (UpdateNodeMem w p n a plus ok).nodeCPU = w.nodeCPU := by
  cases ok <;> rfl

@[simp]
theorem UpdateNodeMem_calls (w : World) (p n : String) (a : Int) (plus ok : Bool) :
    (UpdateNodeMem w p n a plus ok).calls = w.calls ++ [Call.UpdateNodeMem p n a plus] := by
  cases ok <;> rfl

theorem UpdateNodeMem_plus_mem (w : World) (p n : String) (a : Int) :
    (UpdateNodeMem w p n a true true).mem p n = w.mem p n + a := by
  simp [UpdateNodeMem, World.log]

@[simp]
theorem log_ch (w : World) (c : Call) : (w.log c).ch = w.ch := rfl

@[simp]
theorem log_mem (w : World) (c : Call) : (w.log c).mem = w.mem := rfl

@[simp]
theorem log_cpu (w : World) (c : Call) : (w.log c).cpu = w.cpu := rfl

@[simp]
theorem log_nodeCPU (w : World) (c : Call) : (w.log c).nodeCPU = w.nodeCPU := rfl

@[simp]
theorem log_calls (w : World) (c : Call) : (w.log c).calls = w.calls ++ [c] := rfl

@[simp]
theorem send_ch (w : World) (m : ReallocResourceMessage) :
    (w.send m).ch = w.ch ++ [m] := rfl

@[simp]
theorem send_mem (w : World) (m : ReallocResourceMessage) :
    (w.send m).mem = w.mem := rfl

@[simp]
theorem send_cpu (w : World) (m : ReallocResourceMessage) :
    (w.send m).cpu = w.cpu := rfl

@[simp]
theorem send_nodeCPU (w : World) (m : ReallocResourceMessage) :
    (w.send m).nodeCPU = w.nodeCPU := rfl

@[simp]
theorem send_calls (w : World) (m : ReallocResourceMessage) :
    (w.send m).calls = w.calls := rfl

/-! ### Memory-prior apply step -/

theorem inspected_of_some {j : Job} {c : ContainerJSON} (h : j.replies.Inspect = some c) :
    inspected j = c := by
  simp [inspected, h]

theorem updateContainer_ch {F : Type} (P : Params F) (podname : String) (node : Node)
    (cpu : F) (memory : Int) (j : Job) (w : World)
    (hread : j.replies.Inspect.isSome = true) :
    (updateContainer P podname node cpu memory j w).world.ch
        = w.ch ++ [outcomeOf P cpu memory j] ∧
    (persistFailed P cpu memory j = true →
        ∃ w1, updateContainer P podname node cpu memory j w = .ret w1) ∧
    (persistFailed P cpu memory j = false →
        ∃ w1, updateContainer P podname node cpu memory j w = .next w1) := by
  obtain ⟨c, hc⟩ := Option.isSome_iff_exists.1 hread
  have hi := inspected_of_some hc
  unfold updateContainer
  simp only [outcomeOf, persistFailed, fullySucceeded, runtimeSucceeded, runtimeTried,
    validResources, hc, hi, Option.isSome_some, Bool.true_and]
  split_ifs <;> simp_all [Flow.world]

theorem processed_of_no_failure {F : Type} (P : Params F) (cpu : F) (memory : Int)
    (l : List Job) (h : ∀ j ∈ l, persistFailed P cpu memory j = false) :
    processed P cpu memory l = l := by
  induction l with
  | nil => rfl
  | cons j rest ih =>
    simp [processed, h j (by simp), ih (fun x hx => h x (by simp [hx]))]

theorem processed_at_first_failure {F : Type} (P : Params F) (cpu : F) (memory : Int)
    (pre : List Job) (j : Job) (post : List Job)
    (hpre : ∀ x ∈ pre, persistFailed P cpu memory x = false)
    (hj : persistFailed P cpu memory j = true) :
    processed P cpu memory (pre ++ j :: post) = pre ++ [j] := by
  induction pre with
  | nil => simp [processed, hj]
  | cons x rest ih =>
    simp [processed, hpre x (by simp), ih (fun y hy => hpre y (by simp [hy]))]

/-- Outcomes when every inspection succeeds: the outcomes emitted by
`doUpdateContainerWithMemoryPrior` are, in list order, exactly one outcome per
container of `processed`, which is the whole list when no metadata persistence
fails and otherwise the part of the list ending at the first container whose
persistence fails; that container is reported failed, and an outcome is a
success only if the container's runtime update and persistence both succeeded. -/
theorem doUpdateContainerWithMemoryPrior_outcomes_of_readable {F : Type} (P : Params F)
    (podname : String) (node : Node) (cpu : F) (memory : Int) (l : List Job) (w : World)
    (hread : ∀ j ∈ l, j.replies.Inspect.isSome = true) :
    (doUpdateContainerWithMemoryPrior P podname node cpu memory l w).panicked = false ∧
    (doUpdateContainerWithMemoryPrior P podname node cpu memory l w).world.ch
        = w.ch ++ (processed P cpu memory l).map (outcomeOf P cpu memory) ∧
    ((∀ j ∈ l, persistFailed P cpu memory j = false) → processed P cpu memory l = l) ∧
    (∀ pre j post, l = pre ++ j :: post →
        (∀ x ∈ pre, persistFailed P cpu memory x = false) →
        persistFailed P cpu memory j = true →
        processed P cpu memory l = pre ++ [j] ∧ (outcomeOf P cpu memory j).Success = false) ∧
    (∀ j, (outcomeOf P cpu memory j).Success = true →
        j.replies.Inspect.isSome = true ∧ j.replies.reSetContainer = true ∧
          j.replies.AddContainer = true) := by
  have main : (doUpdateContainerWithMemoryPrior P podname node cpu memory l w).panicked = false ∧
      (doUpdateContainerWithMemoryPrior P podname node cpu memory l w).world.ch
        = w.ch ++ (processed P cpu memory l).map (outcomeOf P cpu memory) := by
    induction l generalizing w with
    | nil => simp [doUpdateContainerWithMemoryPrior, processed, Flow.world, Flow.panicked]
    | cons j rest ih =>
      obtain ⟨hch, hret, hnext⟩ :=
        updateContainer_ch P podname node cpu memory j w (hread j (by simp))
      cases hp : persistFailed P cpu memory j with
      | true =>
        obtain ⟨w1, hw1⟩ := hret hp
        rw [hw1] at hch
        simp only [doUpdateContainerWithMemoryPrior, hw1, processed, hp, if_true,
          List.map_cons, List.map_nil, Flow.panicked, true_and]
        exact hch
      | false =>
        obtain ⟨w1, hw1⟩ := hnext hp
        rw [hw1] at hch
        simp only [Flow.world] at hch
        obtain ⟨ih1, ih2⟩ := ih w1 (fun x hx => hread x (by simp [hx]))
        simp only [doUpdateContainerWithMemoryPrior, hw1, processed, hp, List.map_cons]
        refine ⟨ih1, ?_⟩
        rw [ih2, hch]
        simp
  refine ⟨main.1, main.2, processed_of_no_failure P cpu memory l, ?_, ?_⟩
  · intro pre j post hl hpre hj
    subst hl
    refine ⟨processed_at_first_failure P cpu memory pre j post hpre hj, ?_⟩
    simp only [persistFailed, Bool.and_eq_true, Bool.not_eq_true'] at hj
    simp [outcomeOf, fullySucceeded, hj.2]
  · intro j hj
    simp only [outcomeOf, fullySucceeded, runtimeSucceeded, runtimeTried,
      Bool.and_eq_true] at hj
    exact ⟨hj.1.1.1, hj.1.2, hj.2⟩

/-- C7 at a failing input. Two containers on "n1", delta -256: the inspection of
"c1" returns an error, "c2" would update without a failure and no persistence
fails. The read of `containerJSON.ID` at line 166 goes through the nil embedded
pointer: the call panics and no outcome is emitted, neither for "c1" nor for
"c2", and the capacity of "n1" stays 1024. -/
theorem doUpdateContainerWithMemoryPrior_panics_on_failed_inspect :
    persistFailed intParams 0 (-256) jobInspectFails = false ∧
    persistFailed intParams 0 (-256) jobHealthy = false ∧
    (doUpdateContainerWithMemoryPrior intParams "pod" node1 0 (-256)
        [jobInspectFails, jobHealthy] world0).panicked = true ∧
    (doUpdateContainerWithMemoryPrior intParams "pod" node1 0 (-256)
        [jobInspectFails, jobHealthy] world0).world.ch = [] ∧
    (doUpdateContainerWithMemoryPrior intParams "pod" node1 0 (-256)
        [jobInspectFails, jobHealthy] world0).world.mem "pod" "n1" = 1024 := by
  decide

theorem updateContainer_mem {F : Type} (P : Params F) (podname : String) (node : Node)
    (cpu : F) (memory : Int) (j : Job) (w : World)
    (hread : j.replies.Inspect.isSome = true)
    (hraw : j.container.RawResource = false) (hstore : j.replies.UpdateNodeMem = true)
    (hmem : -(2 ^ 63) < memory ∧ memory < 2 ^ 63) :
    (updateContainer P podname node cpu memory j w).world.mem podname node.Name
      = w.mem podname node.Name + (if givesBack P cpu memory j then |memory| else 0) := by
  obtain ⟨c, hc⟩ := Option.isSome_iff_exists.1 hread
  have hi := inspected_of_some hc
  unfold updateContainer
  simp only [givesBack, runtimeFailed, runtimeSucceeded, runtimeTried, validResources,
    hraw, hstore, hc, hi, Option.isSome_some, Bool.true_and]
  rcases lt_trichotomy memory 0 with hm | hm | hm
  · have e1 : wrap64 (-memory) = -memory := wrap64_of_range (by omega) (by omega)
    have e2 : ¬ (memory > 0) := by omega
    have e3 : |memory| = -memory := abs_of_neg hm
    rw [e1, e3]
    split_ifs <;> first | omega | (simp_all [Flow.world, UpdateNodeMem_plus_mem] <;> omega)
  · subst hm
    split_ifs <;> simp_all [Flow.world]
  · have e2 : ¬ (memory < 0) := by omega
    have e3 : |memory| = memory := abs_of_pos hm
    rw [e3]
    split_ifs <;> first | omega | (simp_all [Flow.world, UpdateNodeMem_plus_mem] <;> omega)

/-- C5 refuted at a concrete input. One non-raw container whose inspection shows
the memory limit -1, delta -2^63, every reply a success. The new memory wraps
to 2^63 - 1 and is valid, the runtime update succeeds (so `k = 1`), and the
amount given back is `-memory`, which wraps to -2^63: the tracked capacity goes
from 1024 to 1024 - 2^63, not to 1024 + 2^63. -/
theorem doUpdateContainerWithMemoryPrior_gives_back_wraps_at_min :
    jobMinusOne.container.RawResource = false ∧
    jobMinusOne.replies.UpdateNodeMem = true ∧
    ((processed intParams 0 (-(2 ^ 63)) [jobMinusOne]).filter
        (givesBack intParams 0 (-(2 ^ 63)))).length = 1 ∧
    world0.mem "pod" "n1" = 1024 ∧
    (doUpdateContainerWithMemoryPrior intParams "pod" node1 0 (-(2 ^ 63)) [jobMinusOne]
        world0).world.mem "pod" "n1" = 1024 - 2 ^ 63 ∧
    (doUpdateContainerWithMemoryPrior intParams "pod" node1 0 (-(2 ^ 63)) [jobMinusOne]
        world0).world.mem "pod" "n1" ≠ 1024 + |(-(2 ^ 63) : Int)| * 1 := by
  decide

/-- C5 as amended. For non-raw containers on one node whose inspections succeed,
and a memory delta that is an `int64` other than the minimum value -2^63, when
the store writes succeed, `doUpdateContainerWithMemoryPrior` raises the node's
tracked memory capacity by exactly `|delta| * k`, where `k` counts the processed
containers for which (delta > 0 and the runtime update failed) or (delta < 0 and
the runtime update succeeded, whatever the persistence does); containers skipped
as invalid, containers after an abort and delta = 0 contribute nothing. -/
theorem doUpdateContainerWithMemoryPrior_gives_back {F : Type} (P : Params F)
    (podname : String) (node : Node) (cpu : F) (memory : Int) (l : List Job) (w : World)
    (hread : ∀ j ∈ l, j.replies.Inspect.isSome = true)
    (hraw : ∀ j ∈ l, j.container.RawResource = false)
    (hstore : ∀ j ∈ l, j.replies.UpdateNodeMem = true)
    (hmem : -(2 ^ 63) < memory ∧ memory < 2 ^ 63) :
    (doUpdateContainerWithMemoryPrior P podname node cpu memory l w).world.mem
        podname node.Name
      = w.mem podname node.Name
        + |memory| * (((processed P cpu memory l).filter (givesBack P cpu memory)).length : Int) := by
  induction l generalizing w with
  | nil => simp [doUpdateContainerWithMemoryPrior, processed, Flow.world]
  | cons j rest ih =>
    obtain ⟨_, hret, hnext⟩ :=
      updateContainer_ch P podname node cpu memory j w (hread j (by simp))
    have hstep := updateContainer_mem P podname node cpu memory j w
      (hread j (by simp)) (hraw j (by simp)) (hstore j (by simp)) hmem
    have ih1 := fun w1 => ih w1 (fun x hx => hread x (by simp [hx]))
      (fun x hx => hraw x (by simp [hx])) (fun x hx => hstore x (by simp [hx]))
    cases hp : persistFailed P cpu memory j with
    | true =>
      obtain ⟨w1, hw1⟩ := hret hp
      rw [hw1] at hstep
      simp only [Flow.world] at hstep
      simp only [doUpdateContainerWithMemoryPrior, hw1, processed, hp, if_true, Flow.world,
        hstep]
      cases hg : givesBack P cpu memory j <;> simp [List.filter, hg]
    | false =>
      obtain ⟨w1, hw1⟩ := hnext hp
      rw [hw1] at hstep
      simp only [Flow.world] at hstep
      simp only [doUpdateContainerWithMemoryPrior, hw1, processed, hp]
      rw [ih1 w1, hstep]
      cases hg : givesBack P cpu memory j <;> simp [List.filter, hg]
      ring

/-- Witness of the amended C5: four containers, delta -256; the first shrinks,
the runtime update of the second fails, the third shrinks and its persistence
fails, the fourth is not reached: the capacity rises by `256 * 2`. -/
theorem doUpdateContainerWithMemoryPrior_gives_back_witness :
    (doUpdateContainerWithMemoryPrior intParams "pod" node1 0 (-256) fourJobs
        world0).world.mem "pod" "n1" = 1024 + 256 * 2 :=
  (doUpdateContainerWithMemoryPrior_gives_back intParams "pod" node1 0 (-256) fourJobs world0
    (by decide) (by decide) (by decide) (by decide)).trans (by decide)

theorem updateContainer_raw {F : Type} (P : Params F) (podname : String) (node : Node)
    (cpu : F) (memory : Int) (j : Job) (w : World)
    (hraw : j.container.RawResource = true) :
    (updateContainer P podname node cpu memory j w).world.mem = w.mem ∧
    (updateContainer P podname node cpu memory j w).world.cpu = w.cpu ∧
    ∃ extra, (updateContainer P podname node cpu memory j w).world.calls = w.calls ++ extra ∧
      ∀ c ∈ extra, c.isNodeMemOrCPU = false := by
  unfold updateContainer
  cases hc : j.replies.Inspect with
  | none => simp [Flow.world, Call.isNodeMemOrCPU]
  | some c =>
    simp only [hraw, Bool.true_eq_false, and_false, if_false]
    split_ifs <;> simp [Flow.world, Call.isNodeMemOrCPU]

/-- C4. For raw-resource containers, every CPU delta and memory delta and every
combination of inspect, runtime-update and persistence results,
`doUpdateContainerWithMemoryPrior` makes no `UpdateNodeMem` and no `UpdateNodeCPU`
call, and the ledger's memory capacities and CPU maps are the same after the
call as before. -/
theorem doUpdateContainerWithMemoryPrior_raw_leaves_ledger {F : Type} (P : Params F)
    (podname : String) (node : Node) (cpu : F) (memory : Int) (l : List Job) (w : World)
    (hraw : ∀ j ∈ l, j.container.RawResource = true) :
    (doUpdateContainerWithMemoryPrior P podname node cpu memory l w).world.mem = w.mem ∧
    (doUpdateContainerWithMemoryPrior P podname node cpu memory l w).world.cpu = w.cpu ∧
    ∃ extra,
      (doUpdateContainerWithMemoryPrior P podname node cpu memory l w).world.calls
        = w.calls ++ extra ∧
      ∀ c ∈ extra, c.isNodeMemOrCPU = false := by
  induction l generalizing w with
  | nil =>
    exact ⟨rfl, rfl, [], by simp [doUpdateContainerWithMemoryPrior, Flow.world], by simp⟩
  | cons j rest ih =>
    obtain ⟨hm, hc, extra, hcalls, hextra⟩ :=
      updateContainer_raw P podname node cpu memory j w (hraw j (by simp))
    cases hflow : updateContainer P podname node cpu memory j w with
    | ret w1 =>
      rw [hflow] at hm hc hcalls
      simp only [doUpdateContainerWithMemoryPrior, hflow]
      exact ⟨hm, hc, extra, hcalls, hextra⟩
    | panic w1 =>
      rw [hflow] at hm hc hcalls
      simp only [doUpdateContainerWithMemoryPrior, hflow]
      exact ⟨hm, hc, extra, hcalls, hextra⟩
    | next w1 =>
      rw [hflow] at hm hc hcalls
      simp only [Flow.world] at hm hc hcalls
      obtain ⟨hm2, hc2, extra2, hcalls2, hextra2⟩ :=
        ih w1 (fun x hx => hraw x (by simp [hx]))
      simp only [doUpdateContainerWithMemoryPrior, hflow]
      refine ⟨hm2.trans hm, hc2.trans hc, extra ++ extra2, ?_, ?_⟩
      · rw [hcalls2, hcalls, List.append_assoc]
      · intro c hcmem
        rcases List.mem_append.1 hcmem with h | h
        · exact hextra c h
        · exact hextra2 c h

/-- Witness of C4: three raw-resource containers, delta -256, one runtime failure
and one persistence failure: the tracked capacity of "n1" stays 1024. -/
theorem doUpdateContainerWithMemoryPrior_raw_leaves_ledger_witness :
    (doUpdateContainerWithMemoryPrior intParams "pod" node1 0 (-256) rawJobs
        world0).world.mem "pod" "n1" = 1024 :=
  congrFun (congrFun (doUpdateContainerWithMemoryPrior_raw_leaves_ledger intParams "pod" node1
    0 (-256) rawJobs world0 (by decide)).1 "pod") "n1"

/-! ### CPU-prior reallocation -/

@[simp]
theorem UpdateNodeCPU_ch (w : World) (p n : String) (c : CPUMap) (plus ok : Bool) :
    (UpdateNodeCPU w p n c plus ok).ch = w.ch := by
  cases ok <;> rfl

@[simp]
theorem UpdateNodeCPU_mem (w : World) (p n : String) (c : CPUMap) (plus ok : Bool) :
    (UpdateNodeCPU w p n c plus ok).mem = w.mem := by
  cases ok <;> rfl

@[simp]
theorem UpdateNodeCPU_nodeCPU (w : World) (p n : String) (c : CPUMap)
    (plus ok : Bool) : (UpdateNodeCPU w p n c plus ok).nodeCPU = w.nodeCPU := by
  cases ok <;> rfl

@[simp]
theorem UpdateNodeCPU_calls (w : World) (p n : String) (c : CPUMap)
    (plus ok : Bool) :
    (UpdateNodeCPU w p n c plus ok).calls = w.calls ++ [Call.UpdateNodeCPU p n c plus] := by
  cases ok <;> rfl

/-- C8 at a failing input. One node "n1" with the single container "c1" and one
assignment; the runtime update fails and the persistence succeeds. The ID "c1"
gets two outcomes, a failure followed by a success. -/
theorem doReallocContainersWithCPUPrior_reports_twice :
    (doReallocContainersWithCPUPrior [⟨node1, [jobRuntimeFails], nodeOk⟩]
        [(node1, [oneCore "0" 7])] world0).world.ch
      = [⟨"c1", false⟩, ⟨"c1", true⟩] := by
  decide

/-- C3 at a failing input. Node "n1" is in two buckets; the scheduler succeeds
for the first (the node is rewritten with 8 shares on core "0") and returns
an error for the second. Every store write succeeds and the call returns an
error, yet the persisted CPU map of "n1" has 8 shares on core "0" after the
call and had 10 before. -/
theorem reallocNodesCPU_keeps_earlier_bucket_on_failure :
    resultOk (reallocNodesCPU intParams true "pod" twoBuckets world0).1 = false ∧
    world0.cpu "pod" "n1" "0" = 10 ∧
    (reallocNodesCPU intParams true "pod" twoBuckets world0).2.cpu "pod" "n1" "0" = 8 := by
  decide

/-- C9 refuted at a concrete input. One bucket with node "n1" and container "c1";
the scheduler succeeds and returns an assignment list for "n1" and no entry for
it in the changed map. `reallocNodesCPU` succeeds, its result holds no
assignment list for "n1" under the bucket, and `reallocContainersWithCPUPrior`
emits no outcome. -/
theorem reallocNodesCPU_unchanged_node_not_recorded_example :
    (selUnchanged.result "n1").isSome = true ∧
    (selUnchanged.changed "n1").isNone = true ∧
    resultOk (reallocNodesCPU intParams true "pod" unchangedBucket world0).1 = true ∧
    resultHas intParams 7 node1 (reallocNodesCPU intParams true "pod" unchangedBucket world0).1
      = false ∧
    (reallocContainersWithCPUPrior intParams true cpuPod unchangedBucket world0).world.ch
      = [] := by
  decide

theorem returnCPU_calls (podname : String) (node : Node) (l : List Job) (w : World) :
    ∃ extra, (returnCPU podname node l w).2.calls = w.calls ++ extra ∧
      ∀ c ∈ extra, c.isUpdateNode = false := by
  induction l generalizing w with
  | nil => exact ⟨[], by simp [returnCPU], by simp⟩
  | cons j rest ih =>
    cases hj : j.replies.UpdateNodeCPUPlus with
    | false =>
      refine ⟨[Call.UpdateNodeCPU podname node.Name j.container.CPU true], ?_, ?_⟩
      · simp [returnCPU, hj]
      · simp [Call.isUpdateNode]
    | true =>
      simp only [returnCPU, hj, if_true]
      obtain ⟨extra, h1, h2⟩ := ih
        { UpdateNodeCPU w podname node.Name j.container.CPU true true with
          nodeCPU := fun a =>
            if a = node.addr then
              ((UpdateNodeCPU w podname node.Name j.container.CPU true true).nodeCPU a).Add
                j.container.CPU
            else (UpdateNodeCPU w podname node.Name j.container.CPU true true).nodeCPU a }
      refine ⟨Call.UpdateNodeCPU podname node.Name j.container.CPU true :: extra, ?_, ?_⟩
      · rw [h1]; simp
      · intro c hc
        rcases List.mem_cons.1 hc with h | h
        · subst h; rfl
        · exact h2 c h

theorem returnCPU_ok (podname : String) (node : Node) (l : List Job) (w : World)
    (h : ∀ j ∈ l, j.replies.UpdateNodeCPUPlus = true) :
    (returnCPU podname node l w).1 = none := by
  induction l generalizing w with
  | nil => rfl
  | cons j rest ih =>
    simp only [returnCPU, h j (by simp), if_true]
    exact ih _ (fun x hx => h x (by simp [hx]))

theorem returnCPU_cpu (podname : String) (node : Node) (l : List Job) (w : World)
    (h : ∀ j ∈ l, j.replies.UpdateNodeCPUPlus = true) (q n label : String) :
    (returnCPU podname node l w).2.cpu q n label
      = w.cpu q n label + (if q = podname ∧ n = node.Name then heldCPU l label else 0) := by
  induction l generalizing w with
  | nil => simp [returnCPU, heldCPU]
  | cons j rest ih =>
    simp only [returnCPU, h j (by simp), if_true]
    rw [ih _ (fun x hx => h x (by simp [hx]))]
    by_cases hk : q = podname ∧ n = node.Name
    · simp only [UpdateNodeCPU, World.log, if_true, hk, and_self, CPUMap.Add, heldCPU]
      ring
    · simp [UpdateNodeCPU, World.log, hk]

theorem undoCPU_cpu (podname : String) (node : Node) (l : List Job) (w : World)
    (h : ∀ j ∈ l, j.replies.UpdateNodeCPUMinus = true) (q n label : String) :
    (undoCPU podname node l w).1 = none ∧
    (undoCPU podname node l w).2.cpu q n label
      = w.cpu q n label - (if q = podname ∧ n = node.Name then heldCPU l label else 0) := by
  induction l generalizing w with
  | nil => simp [undoCPU, heldCPU]
  | cons j rest ih =>
    simp only [undoCPU, h j (by simp), if_true]
    obtain ⟨h1, h2⟩ := ih (UpdateNodeCPU w podname node.Name j.container.CPU false true)
      (fun x hx => h x (by simp [hx]))
    refine ⟨h1, ?_⟩
    rw [h2]
    by_cases hk : q = podname ∧ n = node.Name
    · simp only [UpdateNodeCPU, World.log, if_true, hk, and_self, heldCPU,
        Bool.false_eq_true, if_false]
      unfold CPUMap.Sub
      ring
    · simp [UpdateNodeCPU, World.log, hk]

/-- Rollback inside one iteration: when the scheduler returns an error for a node
entry and every store write succeeds, the iteration of `reallocNodesCPU` for
that entry returns an error and leaves the persisted CPU maps as they were. -/
theorem reallocNodeCPU_rollback {F : Type} (P : Params F) (podname : String)
    (cpu : F) (e : NodeJobs) (acc : CPUNodeContainersMap F) (w : World)
    (hplus : ∀ j ∈ e.containers, j.replies.UpdateNodeCPUPlus = true)
    (hminus : ∀ j ∈ e.containers, j.replies.UpdateNodeCPUMinus = true)
    (hsel : e.replies.SelectCPUNodes = none) :
    resultOk (reallocNodeCPU P podname cpu e acc w).1 = false ∧
    ∀ q n label, (reallocNodeCPU P podname cpu e acc w).2.cpu q n label = w.cpu q n label := by
  have hok := returnCPU_ok podname e.node e.containers w hplus
  have hcpu := returnCPU_cpu podname e.node e.containers w hplus
  cases hr : returnCPU podname e.node e.containers w with
  | mk err w1 =>
    rw [hr] at hok hcpu
    simp only at hok hcpu
    subst hok
    have hu := undoCPU_cpu podname e.node e.containers
      (w1.log (.SelectCPUNodes e.node.Name e.containers.length)) hminus
    cases hq : undoCPU podname e.node e.containers
        (w1.log (.SelectCPUNodes e.node.Name e.containers.length)) with
    | mk err2 w2 =>
      rw [hq] at hu
      simp only at hu
      have h1 := (hu "" "" "").1
      subst h1
      simp only [reallocNodeCPU, hr, hsel, hq, resultOk, true_and]
      intro q n label
      rw [(hu q n label).2, log_cpu, hcpu q n label]
      ring

theorem reallocNodeCPU_no_UpdateNode {F : Type} (P : Params F) (podname : String)
    (cpu : F) (e : NodeJobs) (acc : CPUNodeContainersMap F) (w : World)
    (sel : Selection) (hsel : e.replies.SelectCPUNodes = some sel)
    (hchg : sel.changed e.node.Name = none) :
    (∀ acc1, (reallocNodeCPU P podname cpu e acc w).1 = .ok acc1 → acc1 = acc) ∧
    ∃ extra, (reallocNodeCPU P podname cpu e acc w).2.calls = w.calls ++ extra ∧
      ∀ c ∈ extra, c.isUpdateNode = false := by
  obtain ⟨extra, h1, h2⟩ := returnCPU_calls podname e.node e.containers w
  cases hr : returnCPU podname e.node e.containers w with
  | mk err w1 =>
    rw [hr] at h1
    simp only at h1
    cases err with
    | some msg =>
      simp only [reallocNodeCPU, hr]
      exact ⟨fun acc1 h => by simp at h, extra, h1, h2⟩
    | none =>
      simp only [reallocNodeCPU, hr, hsel, hchg]
      refine ⟨fun acc1 h => ?_,
        extra ++ [Call.SelectCPUNodes e.node.Name e.containers.length], ?_, ?_⟩
      · cases hres : sel.result e.node.Name <;> simp_all
      · cases hres : sel.result e.node.Name <;> simp [h1]
      · intro c hc
        rcases List.mem_append.1 hc with h | h
        · exact h2 c h
        · simp only [List.mem_singleton] at h
          subst h; rfl

theorem NodeCPUMap.get_set_ne (node other : Node) (v : List CPUMap) (m : NodeCPUMap)
    (h : other.addr ≠ node.addr) :
    NodeCPUMap.get node (NodeCPUMap.set other v m) = NodeCPUMap.get node m := by
  induction m with
  | nil => simp [NodeCPUMap.set, NodeCPUMap.get, h]
  | cons x rest ih =>
    obtain ⟨n, y⟩ := x
    by_cases h1 : n.addr = other.addr
    · have h2 : n.addr ≠ node.addr := by rw [h1]; exact h
      simp [NodeCPUMap.set, NodeCPUMap.get, h1, h2, h]
    · by_cases h2 : n.addr = node.addr
      · have h3 : ¬ node.addr = other.addr := fun hh => h hh.symm
        simp [NodeCPUMap.set, NodeCPUMap.get, h2, h3]
      · simp [NodeCPUMap.set, NodeCPUMap.get, h1, h2, ih]

theorem recorded_record_ne {F : Type} (P : Params F)
    (hkey : ∀ a b, P.keyEq a b = true ↔ a = b) (cpu other : F) (node n1 : Node)
    (v : List CPUMap) (acc : CPUNodeContainersMap F)
    (h : other ≠ cpu ∨ n1.addr ≠ node.addr) :
    recorded P cpu node (record P other n1 v acc) = recorded P cpu node acc := by
  induction acc with
  | nil =>
    by_cases h1 : other = cpu
    · have h2 : n1.addr ≠ node.addr := by
        rcases h with h | h
        · exact absurd h1 h
        · exact h
      have h3 : P.keyEq other cpu = true := (hkey _ _).2 h1
      simp [record, recorded, h3, NodeCPUMap.get, h2]
    · have h3 : ¬ P.keyEq other cpu = true := fun hh => h1 ((hkey _ _).1 hh)
      simp [record, recorded, h3]
  | cons x rest ih =>
    obtain ⟨k, m⟩ := x
    by_cases h1 : P.keyEq k other = true
    · have hk : k = other := (hkey _ _).1 h1
      by_cases h2 : P.keyEq k cpu = true
      · have hc : k = cpu := (hkey _ _).1 h2
        have h4 : n1.addr ≠ node.addr := by
          rcases h with h | h
          · exact absurd (hk.symm.trans hc) h
          · exact h
        simp [record, recorded, h1, h2, NodeCPUMap.get_set_ne node n1 v m h4]
      · simp [record, recorded, h1, h2]
    · by_cases h2 : P.keyEq k cpu = true
      · simp [record, recorded, h1, h2]
      · simp [record, recorded, h1, h2, ih]

theorem reallocNodeCPU_keeps_other {F : Type} (P : Params F)
    (hkey : ∀ a b, P.keyEq a b = true ↔ a = b) (podname : String) (cpu other : F)
    (node : Node) (x : NodeJobs) (acc acc1 : CPUNodeContainersMap F) (w : World)
    (h : other ≠ cpu ∨ x.node.addr ≠ node.addr)
    (hok : (reallocNodeCPU P podname other x acc w).1 = .ok acc1) :
    recorded P cpu node acc1 = recorded P cpu node acc := by
  unfold reallocNodeCPU at hok
  cases hr : returnCPU podname x.node x.containers w with
  | mk err w1 =>
    rw [hr] at hok
    cases err with
    | some msg => simp at hok
    | none =>
      cases hs : x.replies.SelectCPUNodes with
      | none =>
        rw [hs] at hok
        dsimp only at hok
        cases hu : undoCPU podname x.node x.containers
            (w1.log (Call.SelectCPUNodes x.node.Name x.containers.length)) with
        | mk err2 w2 =>
          rw [hu] at hok
          cases err2 <;> simp at hok
      | some sel =>
        rw [hs] at hok
        dsimp only at hok
        cases hc : sel.changed x.node.Name with
        | none =>
          rw [hc] at hok
          cases hres : sel.result x.node.Name <;> rw [hres] at hok <;> simp at hok <;>
            rw [← hok]
        | some m =>
          rw [hc] at hok
          cases hres : sel.result x.node.Name with
          | none =>
            rw [hres] at hok
            simp at hok
            rw [← hok]
          | some v =>
            rw [hres] at hok
            dsimp only at hok
            cases hu : x.replies.UpdateNode with
            | false => rw [hu] at hok; simp at hok
            | true =>
              rw [hu] at hok
              simp only [if_true, Except.ok.injEq] at hok
              rw [← hok]
              exact recorded_record_ne P hkey cpu other node x.node v acc h

theorem reallocBucketCPU_keeps {F : Type} (P : Params F)
    (hkey : ∀ a b, P.keyEq a b = true ↔ a = b) (podname : String) (cpu other : F)
    (node : Node) (l : NodeContainers) (acc acc1 : CPUNodeContainersMap F) (w : World)
    (hsafe : ∀ x ∈ l, (other ≠ cpu ∨ x.node.addr ≠ node.addr) ∨
      ∃ sel, x.replies.SelectCPUNodes = some sel ∧ sel.changed x.node.Name = none)
    (hok : (reallocBucketCPU P podname other l acc w).1 = .ok acc1) :
    recorded P cpu node acc1 = recorded P cpu node acc := by
  induction l generalizing acc w with
  | nil =>
    simp only [reallocBucketCPU, Except.ok.injEq] at hok
    rw [hok]
  | cons x rest ih =>
    cases hstep : reallocNodeCPU P podname other x acc w with
    | mk r w1 =>
      cases r with
      | error err => simp [reallocBucketCPU, hstep] at hok
      | ok acc2 =>
        simp only [reallocBucketCPU, hstep] at hok
        rw [ih acc2 w1 (fun y hy => hsafe y (by simp [hy])) hok]
        rcases hsafe x (by simp) with h | ⟨sel, hsel, hchg⟩
        · exact reallocNodeCPU_keeps_other P hkey podname cpu other node x acc acc2 w h
            (by rw [hstep])
        · have := (reallocNodeCPU_no_UpdateNode P podname other x acc w sel hsel hchg).1 acc2
            (by rw [hstep])
          rw [this]

theorem reallocBucketsCPU_keeps {F : Type} (P : Params F)
    (hkey : ∀ a b, P.keyEq a b = true ↔ a = b) (podname : String) (cpu : F)
    (node : Node) (bs : CPUNodeContainers F) (acc acc1 : CPUNodeContainersMap F) (w : World)
    (hsafe : ∀ b ∈ bs, ∀ x ∈ b.2, (b.1 ≠ cpu ∨ x.node.addr ≠ node.addr) ∨
      ∃ sel, x.replies.SelectCPUNodes = some sel ∧ sel.changed x.node.Name = none)
    (hok : (reallocBucketsCPU P podname bs acc w).1 = .ok acc1) :
    recorded P cpu node acc1 = recorded P cpu node acc := by
  induction bs generalizing acc w with
  | nil =>
    simp only [reallocBucketsCPU, Except.ok.injEq] at hok
    rw [hok]
  | cons b rest ih =>
    obtain ⟨other, l⟩ := b
    cases hstep : reallocBucketCPU P podname other l acc w with
    | mk r w1 =>
      cases r with
      | error err => simp [reallocBucketsCPU, hstep] at hok
      | ok acc2 =>
        simp only [reallocBucketsCPU, hstep] at hok
        rw [ih acc2 w1 (fun y hy => hsafe y (by simp [hy])) hok]
        exact reallocBucketCPU_keeps P hkey podname cpu other node l acc acc2 w
          (hsafe (other, l) (by simp)) (by rw [hstep])

/-- C9 as amended. Let the bucket keys compare by equality, the buckets have
distinct keys and the bucket `cpu` have one entry per node. For a node entry of
that bucket for which the scheduler succeeds and returns an assignment list for
the node but no entry for it in the changed map, the result of
`reallocNodesCPU` holds no assignment list for the node under the bucket, and
the iteration for that entry makes no `UpdateNode` call. -/
theorem reallocNodesCPU_unchanged_not_recorded {F : Type} (P : Params F)
    (lockOk : Bool) (podname : String) (buckets : CPUNodeContainers F) (w : World)
    (cpu : F) (nodes : NodeContainers) (e : NodeJobs) (sel : Selection)
    (assignment : List CPUMap)
    (hkey : ∀ a b, P.keyEq a b = true ↔ a = b)
    (hbuckets : buckets.Pairwise (fun a b => a.1 ≠ b.1))
    (hb : (cpu, nodes) ∈ buckets)
    (hnodes : nodes.Pairwise (fun x y => x.node.addr ≠ y.node.addr))
    (he : e ∈ nodes)
    (hsel : e.replies.SelectCPUNodes = some sel)
    (_hres : sel.result e.node.Name = some assignment)
    (hchg : sel.changed e.node.Name = none) :
    resultHas P cpu e.node (reallocNodesCPU P lockOk podname buckets w).1 = false ∧
    ∀ acc w1, ∃ extra,
      (reallocNodeCPU P podname cpu e acc w1).2.calls = w1.calls ++ extra ∧
      ∀ c ∈ extra, c.isUpdateNode = false := by
  refine ⟨?_, fun acc w1 =>
    (reallocNodeCPU_no_UpdateNode P podname cpu e acc w1 sel hsel hchg).2⟩
  have hsafe : ∀ b ∈ buckets, ∀ x ∈ b.2, (b.1 ≠ cpu ∨ x.node.addr ≠ e.node.addr) ∨
      ∃ sel, x.replies.SelectCPUNodes = some sel ∧ sel.changed x.node.Name = none := by
    intro b hbm x hx
    by_cases h1 : b.1 = cpu
    · have hbeq : b = (cpu, nodes) := by
        by_contra hne
        exact (hbuckets.forall (fun _ _ h => Ne.symm h) hbm hb hne) h1
      subst hbeq
      by_cases h2 : x.node.addr = e.node.addr
      · have hxe : x = e := by
          by_contra hne
          exact (hnodes.forall (fun _ _ h => Ne.symm h) hx he hne) h2
        subst hxe
        exact Or.inr ⟨sel, hsel, hchg⟩
      · exact Or.inl (Or.inr h2)
    · exact Or.inl (Or.inl h1)
  cases lockOk with
  | false => simp [reallocNodesCPU, resultHas]
  | true =>
    simp only [reallocNodesCPU, if_true]
    cases hr : reallocBucketsCPU P podname buckets [] (w.log (Call.Lock podname)) with
    | mk r w1 =>
      cases r with
      | error err => simp [resultHas]
      | ok acc1 =>
        have := reallocBucketsCPU_keeps P hkey podname cpu e.node buckets [] acc1
          (w.log (Call.Lock podname)) hsafe (by rw [hr])
        simp [resultHas, this, recorded]

/-- Witness of the amended C9 at `unchangedBucket`: nothing is recorded for "n1"
under the bucket of share 7. -/
theorem reallocNodesCPU_unchanged_not_recorded_witness :
    resultHas intParams 7 node1
      (reallocNodesCPU intParams true "pod" unchangedBucket world0).1 = false :=
  (reallocNodesCPU_unchanged_not_recorded intParams true "pod" unchangedBucket world0 7
    [unchangedEntry] unchangedEntry selUnchanged [oneCore "0" 7]
    (by simp [intParams]) (by simp [unchangedBucket]) (by simp [unchangedBucket, unchangedEntry])
    (by simp) (by simp) rfl rfl rfl).1

/-! ### Grouping and classification -/

theorem OnlyReads.refl (w : World) : OnlyReads w w :=
  ⟨rfl, rfl, rfl, rfl, [], by simp, by simp⟩

theorem OnlyReads.trans {w w1 w2 : World} (h1 : OnlyReads w w1) (h2 : OnlyReads w1 w2) :
    OnlyReads w w2 := by
  obtain ⟨a1, b1, c1, d1, e1, f1, g1⟩ := h1
  obtain ⟨a2, b2, c2, d2, e2, f2, g2⟩ := h2
  refine ⟨a2.trans a1, b2.trans b1, c2.trans c1, d2.trans d1, e1 ++ e2, ?_, ?_⟩
  · rw [f2, f1, List.append_assoc]
  · intro c hc
    rcases List.mem_append.1 hc with h | h
    · exact g1 c h
    · exact g2 c h

theorem OnlyReads.log {w w1 : World} (h : OnlyReads w w1) (c : Call) (hc : c.isRead = true) :
    OnlyReads w (w1.log c) :=
  h.trans ⟨rfl, rfl, rfl, rfl, [c], rfl, by simp [hc]⟩

theorem classifyContainer_onlyReads {F : Type} (P : Params F) (cpu : F) (j : Job)
    (g : Groups F) (w : World) : OnlyReads w (classifyContainer P cpu j g w).2 := by
  have r0 := OnlyReads.refl w
  have r1 := r0.log (.GetNode j.container.Podname j.container.Nodename) rfl
  have r2 := r0.log (.GetPod j.container.Podname) rfl
  have r3 := r1.log (.GetPod j.container.Podname) rfl
  unfold classifyContainer
  dsimp only
  cases cacheGet j.container.Nodename g.nodeCache <;> cases j.replies.GetNode <;>
    cases j.container.RawResource <;> cases j.replies.GetPod <;>
    dsimp only <;> (try split_ifs) <;>
    first | exact r0 | exact r1 | exact r2 | exact r3

theorem classifyContainer_negative {F : Type} (P : Params F) (cpu : F) (j : Job)
    (g : Groups F) (w : World) (pod : Pod)
    (hraw : j.container.RawResource = false)
    (hpod : j.replies.GetPod = some pod) (hfavor : pod.Favor = Favor.CPU_PRIOR)
    (hneg : P.ltZero (P.add (P.calculateCPUUsage j.container) cpu) = true) :
    isError (classifyContainer P cpu j g w).1 = true := by
  unfold classifyContainer
  dsimp only
  cases cacheGet j.container.Nodename g.nodeCache <;> cases j.replies.GetNode <;>
    simp [isError, hraw, hpod, hfavor, hneg]

theorem classify_onlyReads {F : Type} (P : Params F) (cpu : F) (cs : List Job)
    (g : Groups F) (w : World) : OnlyReads w (classify P cpu cs g w).2 := by
  induction cs generalizing g w with
  | nil => exact OnlyReads.refl w
  | cons j rest ih =>
    have h := classifyContainer_onlyReads P cpu j g w
    cases hc : classifyContainer P cpu j g w with
    | mk r w1 =>
      rw [hc] at h
      cases r with
      | error err => simpa [classify, hc] using h
      | ok g1 =>
        simp only [classify, hc]
        exact h.trans (ih g1 w1)

theorem classify_negative {F : Type} (P : Params F) (cpu : F) (cs : List Job)
    (g : Groups F) (w : World) (j : Job) (pod : Pod) (hj : j ∈ cs)
    (hraw : j.container.RawResource = false)
    (hpod : j.replies.GetPod = some pod) (hfavor : pod.Favor = Favor.CPU_PRIOR)
    (hneg : P.ltZero (P.add (P.calculateCPUUsage j.container) cpu) = true) :
    isError (classify P cpu cs g w).1 = true := by
  induction cs generalizing g w with
  | nil => simp at hj
  | cons x rest ih =>
    cases hc : classifyContainer P cpu x g w with
    | mk r w1 =>
      cases r with
      | error err => simp [classify, hc, isError]
      | ok g1 =>
        simp only [classify, hc]
        rcases List.mem_cons.1 hj with h | h
        · subst h
          have := classifyContainer_negative P cpu j g w pod hraw hpod hfavor hneg
          rw [hc] at this
          simp [isError] at this
        · exact ih g1 w1 h

/-- C6. If some non-raw container of the input belongs to a CPU_PRIOR pod and has
current CPU share + CPU delta < 0, `ReallocResource` returns an error (and so no
outcome stream), whatever the goroutine body would do; up to that return only
reads of the store happened: the ledger and the channel are untouched and the
log holds no ledger write, scheduler call or runtime update. -/
theorem ReallocResource_negative_cpu_fails {F : Type} (P : Params F)
    (spawn : Groups F → F → Int → World → World) (cs : List Job) (cpu : F) (mem : Int)
    (w : World) (j : Job) (pod : Pod) (hj : j ∈ cs)
    (hraw : j.container.RawResource = false)
    (hpod : j.replies.GetPod = some pod) (hfavor : pod.Favor = Favor.CPU_PRIOR)
    (hneg : P.ltZero (P.add (P.calculateCPUUsage j.container) cpu) = true) :
    (ReallocResource P spawn (some cs) cpu mem w).1 ≠ none ∧
    OnlyReads w (ReallocResource P spawn (some cs) cpu mem w).2 := by
  have h1 := classify_negative P cpu cs ⟨[], [], [], []⟩ (w.log .GetContainers) j pod hj
    hraw hpod hfavor hneg
  have h2 := classify_onlyReads P cpu cs ⟨[], [], [], []⟩ (w.log .GetContainers)
  have h0 : OnlyReads w (w.log .GetContainers) := (OnlyReads.refl w).log _ rfl
  cases hc : classify P cpu cs ⟨[], [], [], []⟩ (w.log .GetContainers) with
  | mk r w1 =>
    rw [hc] at h1 h2
    cases r with
    | ok g => simp [isError] at h1
    | error err =>
      simp only [ReallocResource, hc]
      exact ⟨by simp, h0.trans h2⟩

/-- Witness of C6 at scenario 5: a CPU-prior container at share 3 and CPU delta
-5: the call returns an error and nothing is sent on the channel. -/
theorem ReallocResource_negative_cpu_fails_witness :
    (ReallocResource intParams spawnOne (some [jobShare3]) (-5) 0 world0).1 ≠ none ∧
    (ReallocResource intParams spawnOne (some [jobShare3]) (-5) 0 world0).2.ch = [] := by
  have h := ReallocResource_negative_cpu_fails intParams spawnOne [jobShare3] (-5) 0 world0
    jobShare3 cpuPod (by simp) rfl rfl rfl (by decide)
  exact ⟨h.1, h.2.2.2.2.1⟩

end Calcium
